import Mathlib

/-!
Verification of the SmartEventAdder email-to-event extraction pipeline.

This file gives a shallow embedding, in Lean 4, of the core functions of the
SmartEventAdder repository (src/main.py, src/modules/event_parser.py,
src/gmail-addon-api/api/models/requests.py) and proves properties about them.

Python strings are embedded as `List Char`; the Python string operations used
by the source (`strip`, `replace`, `startswith`, `split`, `lower`) are defined
below with their CPython semantics (restricted to ASCII whitespace and ASCII
digits, which is all the source relies on).  Python dicts holding extracted
event data are embedded as association lists from `String` keys to an
embedded Python value type; code paths that raise are embedded with `Except`.
-/

set_option autoImplicit false

/-- Embedded Python string: a list of characters. -/
abbrev PyStr := List Char

/-- The ASCII whitespace characters recognised by Python `str.strip()`
(the source only ever strips ASCII text). -/
def isPySpace (c : Char) : Bool :=
  c = ' ' || c = '\t' || c = '\n' || c = '\r' || c = '\x0b' || c = '\x0c'

/-- Python `str.strip()`: drop leading and trailing whitespace. -/
def pyStrip (s : PyStr) : PyStr :=
  ((s.dropWhile isPySpace).reverse.dropWhile isPySpace).reverse

/-- Python `str.lower()` (ASCII case folding, all the source needs). -/
def pyLower (s : PyStr) : PyStr :=
  s.map Char.toLower

/-- Scanner for Python `str.replace`: replace each leftmost non-overlapping
occurrence of `p :: ps` by `rep`, continuing after the replaced text.  Every
step consumes at least one character, so with `fuel` at least the length of
the scanned string the `0` arm is never reached; the fuel only makes the
recursion structural. -/
def pyReplaceGo (p : Char) (ps rep : PyStr) : Nat → PyStr → PyStr
  | _, [] => []
  | 0, s => s
  | fuel + 1, c :: rest =>
    if List.isPrefixOf (p :: ps) (c :: rest) then
      rep ++ pyReplaceGo p ps rep fuel (rest.drop ps.length)
    else
      c :: pyReplaceGo p ps rep fuel rest

/-- Python `s.replace(pat, rep)`.  For the empty pattern Python inserts `rep`
around every character; the source only ever replaces non-empty literals. -/
def pyReplace (s pat rep : PyStr) : PyStr :=
  match pat with
  | [] => rep ++ s.flatMap (fun c => c :: rep)
  | p :: ps => pyReplaceGo p ps rep s.length s

/-- Split at the first occurrence of `sep`, if any:
`splitOnce sep s = some (a, b)` when `s = a ++ sep :: b` with `sep ∉ a`. -/
def splitOnce (sep : Char) : PyStr → Option (PyStr × PyStr)
  | [] => none
  | c :: rest =>
    if c = sep then some ([], rest)
    else (splitOnce sep rest).map (fun p => (c :: p.1, p.2))

/-- Numeric value of an ASCII digit character. -/
def digitVal (c : Char) : Nat := c.toNat - 48

/-- CPython `_strptime` directive `%m`, regex `1[0-2]|0[1-9]|[1-9]`, matched
against the complete month segment; returns the month value on success. -/
def monthVal (m : PyStr) : Option Nat :=
  match m with
  | [c] => if c.isDigit ∧ c ≠ '0' then some (digitVal c) else none
  | [c1, c2] =>
    if c1 = '1' ∧ ('0' ≤ c2 ∧ c2 ≤ '2') then some (10 + digitVal c2)
    else if c1 = '0' ∧ (c2.isDigit ∧ c2 ≠ '0') then some (digitVal c2)
    else none
  | _ => none

/-- CPython `_strptime` directive `%d`, regex `3[01]|[12]\d|0[1-9]|[1-9]`. -/
def dayVal (d : PyStr) : Option Nat :=
  match d with
  | [c] => if c.isDigit ∧ c ≠ '0' then some (digitVal c) else none
  | [c1, c2] =>
    if c1 = '3' ∧ ('0' ≤ c2 ∧ c2 ≤ '1') then some (30 + digitVal c2)
    else if (c1 = '1' ∨ c1 = '2') ∧ c2.isDigit then
      some (10 * digitVal c1 + digitVal c2)
    else if c1 = '0' ∧ (c2.isDigit ∧ c2 ≠ '0') then some (digitVal c2)
    else none
  | _ => none

/-- CPython `_strptime` directive `%H`, regex `2[0-3]|[0-1]\d|\d`. -/
def hourVal (h : PyStr) : Option Nat :=
  match h with
  | [c] => if c.isDigit then some (digitVal c) else none
  | [c1, c2] =>
    if c1 = '2' ∧ ('0' ≤ c2 ∧ c2 ≤ '3') then some (20 + digitVal c2)
    else if (c1 = '0' ∨ c1 = '1') ∧ c2.isDigit then
      some (10 * digitVal c1 + digitVal c2)
    else none
  | _ => none

/-- CPython `_strptime` directive `%M`, regex `[0-5]\d|\d`. -/
def minuteVal (m : PyStr) : Option Nat :=
  match m with
  | [c] => if c.isDigit then some (digitVal c) else none
  | [c1, c2] =>
    if ('0' ≤ c1 ∧ c1 ≤ '5') ∧ c2.isDigit then
      some (10 * digitVal c1 + digitVal c2)
    else none
  | _ => none

/-- Gregorian leap year, as in Python's `datetime`. -/
def isLeapYear (y : Nat) : Bool :=
  y % 4 = 0 ∧ (y % 100 ≠ 0 ∨ y % 400 = 0)

/-- Days in a month, as checked by the `datetime` constructor. -/
def daysInMonth (y m : Nat) : Nat :=
  if m = 2 then (if isLeapYear y then 29 else 28)
  else if m = 4 ∨ m = 6 ∨ m = 9 ∨ m = 11 then 30
  else 31

/-- `datetime.strptime(s, '%Y-%m-%d')` succeeds.  `%Y` is exactly four digits;
`%m` and `%d` accept one- or two-digit values per their regexes; the whole
string must be consumed; then the `datetime` constructor checks `1 <= year`
and that the day exists in the month. -/
def strptimeDate (s : PyStr) : Bool :=
  match s with
  | y1 :: y2 :: y3 :: y4 :: '-' :: rest =>
    y1.isDigit && y2.isDigit && y3.isDigit && y4.isDigit &&
    (match splitOnce '-' rest with
     | some (mseg, dseg) =>
       !dseg.contains '-' &&
       (match monthVal mseg, dayVal dseg with
        | some m, some d =>
          let y := 1000 * digitVal y1 + 100 * digitVal y2 +
                   10 * digitVal y3 + digitVal y4
          decide (1 ≤ y) && decide (d ≤ daysInMonth y m)
        | _, _ => false)
     | none => false)
  | _ => false

/-- `datetime.strptime(s, '%H:%M')` succeeds: one- or two-digit hour and
minute per the `%H` and `%M` regexes, separated by `:`, whole string
consumed. -/
def strptimeTime (s : PyStr) : Bool :=
  match splitOnce ':' s with
  | some (hseg, mseg) =>
    !mseg.contains ':' &&
    (match hourVal hseg, minuteVal mseg with
     | some _, some _ => true
     | _, _ => false)
  | none => false

/-- The spec's words, for comparison: a string in the exact zero-padded form
`YYYY-MM-DD` denoting a valid calendar date. -/
def exactDateFormat (s : PyStr) : Bool :=
  match s with
  | [y1, y2, y3, y4, '-', m1, m2, '-', d1, d2] =>
    y1.isDigit && y2.isDigit && y3.isDigit && y4.isDigit &&
    m1.isDigit && m2.isDigit && d1.isDigit && d2.isDigit &&
    (let y := 1000 * digitVal y1 + 100 * digitVal y2 +
              10 * digitVal y3 + digitVal y4
     let m := 10 * digitVal m1 + digitVal m2
     let d := 10 * digitVal d1 + digitVal d2
     decide (1 ≤ y) && decide (1 ≤ m) && decide (m ≤ 12) &&
     decide (1 ≤ d) && decide (d ≤ daysInMonth y m))
  | _ => false

/-- The spec's words, for comparison: a string in the exact zero-padded
24-hour form `HH:MM`. -/
def exactTimeFormat (s : PyStr) : Bool :=
  match s with
  | [h1, h2, ':', m1, m2] =>
    h1.isDigit && h2.isDigit && m1.isDigit && m2.isDigit &&
    (let h := 10 * digitVal h1 + digitVal h2
     let m := 10 * digitVal m1 + digitVal m2
     decide (h ≤ 23) && decide (m ≤ 59))
  | _ => false

/-- Embedded Python values, covering the scalar value kinds a decoded JSON
object can hold (`None`, strings, numbers, booleans). -/
inductive PyVal where
  | vNone
  | vStr (s : PyStr)
  | vInt (n : Int)
  | vBool (b : Bool)
  deriving DecidableEq

/-- Python truthiness for the embedded values. -/
def truthy : PyVal → Bool
  | .vNone => false
  | .vStr s => !s.isEmpty
  | .vInt n => n ≠ 0
  | .vBool b => b

/-- Embedded Python dict: an association list from keys to values
(lookup finds the first matching key). -/
abbrev Dict := List (String × PyVal)

/-- Python `d[k]` lookup / `d.get(k)` before defaulting. -/
def dictGet (d : Dict) (k : String) : Option PyVal :=
  match d with
  | [] => none
  | (k2, v) :: rest => if k2 = k then some v else dictGet rest k

/-- Python `d.get(k)`: the stored value, `None` when the key is absent. -/
def pyGet (d : Dict) (k : String) : PyVal :=
  (dictGet d k).getD .vNone

/-- Python `k in d`. -/
def dictContains (d : Dict) (k : String) : Bool :=
  (dictGet d k).isSome

/-- Python `d[k] = v`: replace the value at `k` in place, appending the
binding when the key is absent. -/
def dictSet (d : Dict) (k : String) (v : PyVal) : Dict :=
  match d with
  | [] => [(k, v)]
  | (k2, w) :: rest => if k2 = k then (k2, v) :: rest else (k2, w) :: dictSet rest k v

/-- Embedded Python exceptions raised by the modelled code paths. -/
inductive PyErr where
  | valueError (msg : String)
  | typeError
  deriving DecidableEq

/-- `main.validate_extracted_data`, the required-keys loop
(src/main.py lines 167–172): any of the four keys that is missing is
bound to `None`. -/
def requiredKeys : List String := ["summary", "date", "start_time", "location"]

/-- One iteration of the required-keys loop. -/
def ensureKey (d : Dict) (k : String) : Dict :=
  if dictContains d k then d else dictSet d k .vNone

/-- The whole required-keys loop. -/
def ensure_keys (d : Dict) : Dict :=
  requiredKeys.foldl ensureKey d

/-- The warning printed for an invalid date value (src/main.py line 181). -/
def dateWarn (s : PyStr) : PyStr :=
  "⚠️  Invalid date format: ".toList ++ s

/-- The warning printed for an invalid time value (src/main.py line 190). -/
def timeWarn (s : PyStr) : PyStr :=
  "⚠️  Invalid time format: ".toList ++ s

/-- `main.validate_extracted_data`, the date block (src/main.py 175–182):
when `event_data.get('date')` is truthy, `datetime.strptime` is attempted;
a `ValueError` is caught (warn + null the field), but `strptime` raises an
uncaught `TypeError` when the value is not a string. -/
def dateStep (d : Dict) : Except PyErr (Dict × List PyStr) :=
  if truthy (pyGet d "date") then
    match pyGet d "date" with
    | .vStr s =>
      if strptimeDate s then .ok (d, [])
      else .ok (dictSet d "date" .vNone, [dateWarn s])
    | _ => .error .typeError
  else .ok (d, [])

/-- `main.validate_extracted_data`, the start_time block
(src/main.py 184–191), same policy with format `%H:%M`. -/
def timeStep (d : Dict) : Except PyErr (Dict × List PyStr) :=
  if truthy (pyGet d "start_time") then
    match pyGet d "start_time" with
    | .vStr s =>
      if strptimeTime s then .ok (d, [])
      else .ok (dictSet d "start_time" .vNone, [timeWarn s])
    | _ => .error .typeError
  else .ok (d, [])

/-- `main.validate_extracted_data` (src/main.py 165–193): ensure the four
keys, then validate the date and time fields; the returned pair carries the
cleaned record and the warnings printed, `Except.error` marks an uncaught
exception. -/
def validate_extracted_data (d : Dict) : Except PyErr (Dict × List PyStr) :=
  match dateStep (ensure_keys d) with
  | .error e => .error e
  | .ok (d2, w1) =>
    match timeStep d2 with
    | .error e => .error e
    | .ok (d3, w2) => .ok (d3, w1 ++ w2)

/-- A field value that the date/time blocks cannot blow up on: a string, or
anything falsy (falsy values are skipped). -/
def strOrFalsy : PyVal → Bool
  | .vStr _ => true
  | v => !truthy v

/-- The dangerous substrings removed by `main.validate_email_input`
(src/main.py line 148), in replacement order. -/
def dangerousPatterns : List PyStr :=
  ["<script".toList, "</script>".toList, "javascript:".toList, "data:".toList]

/-- The sequential `str.replace(pattern, '')` loop of
`main.validate_email_input` (src/main.py 149–150). -/
def removeDangerous (s : PyStr) : PyStr :=
  dangerousPatterns.foldl (fun acc p => pyReplace acc p []) s

/-- CLI maximum email length (src/main.py line 153). -/
def cliMaxLength : Nat := 10000

/-- The truncation notice printed by `main.validate_email_input`
(src/main.py line 155). -/
def truncWarn : PyStr :=
  "⚠️  Email content truncated to 10000 characters.".toList

/-- The sanitization pipeline of `main.validate_email_input` after the
emptiness check: strip, remove dangerous substrings, hard-truncate at
`cliMaxLength`; returns the text and the warnings printed. -/
def sanitizedEmail (s : PyStr) : PyStr × List PyStr :=
  let t := removeDangerous (pyStrip s)
  if cliMaxLength < t.length then (t.take cliMaxLength, [truncWarn])
  else (t, [])

/-- `main.validate_email_input` (src/main.py 139–162): reject empty or
all-whitespace input, sanitize, then reject when the trimmed sanitized text
is shorter than 20 characters. -/
def validate_email_input (s : PyStr) : Except PyErr (PyStr × List PyStr) :=
  if s.isEmpty || (pyStrip s).isEmpty then
    .error (.valueError "Email content cannot be empty.")
  else
    let (t, ws) := sanitizedEmail s
    if (pyStrip t).length < 20 then
      .error (.valueError
        "Email content too short. Please provide more detailed email content.")
    else .ok (t, ws)

/-- The three fields `main.get_user_confirmation` treats as critical
(src/main.py line 213). -/
def criticalFields : List String := ["summary", "date", "start_time"]

/-- The fields collected as missing by `main.get_user_confirmation`
(src/main.py 215–217): critical fields whose value is falsy. -/
def missingCritical (d : Dict) : List String :=
  criticalFields.filter (fun f => !truthy (pyGet d f))

/-- The outcome of `main.get_user_confirmation`: the returned boolean,
whether the operator was prompted, and the missing-fields notice printed
(the fields named in it), if any. -/
structure ConfirmResult where
  confirmed : Bool
  prompted : Bool
  notice : Option (List String)
  deriving DecidableEq

/-- `main.get_user_confirmation` (src/main.py 209–231): when any critical
field is falsy, print the missing-information notice and return `False`
without prompting; otherwise prompt and accept `y`/`yes` (case-insensitive,
stripped).  `response` is the operator's reply when prompted. -/
def get_user_confirmation (d : Dict) (response : PyStr) : ConfirmResult :=
  let missing := missingCritical d
  if missing.isEmpty then
    let r := pyLower (pyStrip response)
    ⟨r = "y".toList || r = "yes".toList, true, none⟩
  else
    ⟨false, false, some missing⟩

/-- `main.is_message_id_header` (src/main.py 56–87).  The Python code splits
on `'@'` and requires exactly two parts; here that is embedded as
`splitOnce` (the first `'@'`) plus the requirement that the remainder holds
no further `'@'`, which is the same condition. -/
def is_message_id_header (s : PyStr) : Bool :=
  let t := pyStrip s
  if !t.contains '@' then false
  else if t.contains ' ' then false
  else if decide (t.length < 10) || decide (200 < t.length) then false
  else
    match splitOnce '@' t with
    | none => false
    | some (localPart, domainPart) =>
      if domainPart.contains '@' then false
      else if localPart.isEmpty || domainPart.isEmpty then false
      else if !domainPart.contains '.' && !domainPart.contains '-' then false
      else true

/-- HTTP entry maximum email length: `EmailProcessRequest.email_content`
is declared with `max_length=50000`
(src/gmail-addon-api/api/models/requests.py lines 13–18). -/
def httpMaxLength : Nat := 50000

/-- The pydantic validation of `EmailProcessRequest.email_content`
(src/gmail-addon-api/api/models/requests.py 11–32): the `min_length=1` and
`max_length=50000` field constraints are checked first and *reject* the
request; the custom validator then rejects empty-after-strip content and
returns the stripped text. -/
def emailProcessRequestContent (s : PyStr) : Except PyErr PyStr :=
  if s.length < 1 then .error (.valueError "ensure this value has at least 1 characters")
  else if httpMaxLength < s.length then
    .error (.valueError "ensure this value has at most 50000 characters")
  else if s.isEmpty || (pyStrip s).isEmpty then
    .error (.valueError "Email content cannot be empty")
  else .ok (pyStrip s)

/-- The fence-stripping step of `event_parser.extract_event_details`
(src/modules/event_parser.py 77–80): when the trimmed response starts with
a json-tagged fence, remove every occurrence of the opening marker
`` ```json\n `` and of the closing marker `` \n``` ``; when it starts with a
bare fence, the same with `` ```\n ``; otherwise leave the text unchanged. -/
def strip_markdown (s : PyStr) : PyStr :=
  if List.isPrefixOf "```json".toList s then
    pyReplace (pyReplace s "```json\n".toList []) "\n```".toList []
  else if List.isPrefixOf "```".toList s then
    pyReplace (pyReplace s "```\n".toList []) "\n```".toList []
  else s

/-- `event_parser.extract_event_details`, response-sanitization pipeline
(src/modules/event_parser.py 74–80): `response.text.strip()` followed by
markdown fence removal; the result is handed to `json.loads`. -/
def sanitize_response (raw : PyStr) : PyStr :=
  strip_markdown (pyStrip raw)

/-- A json-tagged fence wrapping of a response body, the model output shape
the spec describes: `` ```json `` line, content, `` ``` `` line. -/
def jsonFenceWrap (content : PyStr) : PyStr :=
  "```json\n".toList ++ content ++ "\n```".toList

/-- A bare-fence wrapping of a response body. -/
def bareFenceWrap (content : PyStr) : PyStr :=
  "```\n".toList ++ content ++ "\n```".toList

/- A model of JSON values, used to quantify over "a JSON object" in the
response-sanitization property.  The mutual form keeps recursion over
arrays and objects structural. -/
mutual
inductive Json where
  | jnull
  | jbool (b : Bool)
  | jnum (n : Int)
  | jstr (s : PyStr)
  | jarr (items : JsonArr)
  | jobj (fields : JsonFields)
inductive JsonArr where
  | anil
  | acons (hd : Json) (tl : JsonArr)
inductive JsonFields where
  | fnil
  | fcons (key : PyStr) (val : Json) (tl : JsonFields)
end

/-- JSON string escaping of one character, as `json.dumps` emits it (the
escapes the no-newline argument needs; other control characters would limit
only which source strings are expressible, not the proved property). -/
def escapeChar (c : Char) : PyStr :=
  if c = '"' then ['\\', '"']
  else if c = '\\' then ['\\', '\\']
  else if c = '\n' then ['\\', 'n']
  else if c = '\r' then ['\\', 'r']
  else if c = '\t' then ['\\', 't']
  else [c]

/-- A JSON string literal: quoted, characters escaped. -/
def renderJsonString (s : PyStr) : PyStr :=
  '"' :: (s.flatMap escapeChar ++ ['"'])

/-- The ASCII digit character for `n % 10`-style values. -/
def digitChar (n : Nat) : Char :=
  match n with
  | 0 => '0' | 1 => '1' | 2 => '2' | 3 => '3' | 4 => '4'
  | 5 => '5' | 6 => '6' | 7 => '7' | 8 => '8' | _ => '9'

/-- Decimal digits of a natural number. -/
def natChars (n : Nat) : PyStr :=
  if n < 10 then [digitChar n]
  else natChars (n / 10) ++ [digitChar (n % 10)]
termination_by n
decreasing_by
  exact Nat.div_lt_self (by omega) (by omega)

/-- Decimal rendering of an integer. -/
def intChars (n : Int) : PyStr :=
  if n < 0 then '-' :: natChars n.natAbs else natChars n.toNat

/- Compact serialization of JSON values (as `json.dumps` with separators
`(',', ':')`): no newline characters are ever emitted. -/
mutual
def Json.render : Json → PyStr
  | .jnull => ['n', 'u', 'l', 'l']
  | .jbool true => ['t', 'r', 'u', 'e']
  | .jbool false => ['f', 'a', 'l', 's', 'e']
  | .jnum n => intChars n
  | .jstr s => renderJsonString s
  | .jarr items => '[' :: (JsonArr.renderItems items ++ [']'])
  | .jobj fields => '{' :: (JsonFields.renderFields fields ++ ['}'])
def JsonArr.renderItems : JsonArr → PyStr
  | .anil => []
  | .acons x .anil => Json.render x
  | .acons x tl => Json.render x ++ ',' :: JsonArr.renderItems tl
def JsonFields.renderFields : JsonFields → PyStr
  | .fnil => []
  | .fcons k v .fnil => renderJsonString k ++ ':' :: Json.render v
  | .fcons k v tl =>
    renderJsonString k ++ ':' :: Json.render v ++ ',' :: JsonFields.renderFields tl
end

deriving instance DecidableEq for Except

/-! ## Lemmas about the embedded dict operations -/

theorem dictGet_set_self (d : Dict) (k : String) (v : PyVal) :
    dictGet (dictSet d k v) k = some v := by
  induction d with
  | nil => simp [dictSet, dictGet]
  | cons hd tl ih =>
    obtain ⟨k2, w⟩ := hd
    by_cases h : k2 = k <;> simp [dictSet, dictGet, h, ih]

theorem dictGet_set_ne (d : Dict) (k k2 : String) (v : PyVal) (h : k ≠ k2) :
    dictGet (dictSet d k v) k2 = dictGet d k2 := by
  induction d with
  | nil => simp [dictSet, dictGet, h]
  | cons hd tl ih =>
    obtain ⟨k3, w⟩ := hd
    by_cases h3 : k3 = k
    · subst h3
      simp [dictSet, dictGet, h]
    · simp [dictSet, dictGet, h3, ih]

theorem pyGet_set_self (d : Dict) (k : String) (v : PyVal) :
    pyGet (dictSet d k v) k = v := by
  simp [pyGet, dictGet_set_self]

theorem pyGet_set_ne (d : Dict) (k k2 : String) (v : PyVal) (h : k ≠ k2) :
    pyGet (dictSet d k v) k2 = pyGet d k2 := by
  simp [pyGet, dictGet_set_ne d k k2 v h]

theorem dictGet_ensureKey_self (d : Dict) (k : String) :
    dictGet (ensureKey d k) k = some (pyGet d k) := by
  unfold ensureKey
  by_cases h : dictContains d k
  · simp only [h, if_true]
    unfold dictContains at h
    cases hv : dictGet d k with
    | none => simp [hv] at h
    | some v => simp [pyGet, hv]
  · simp only [h, if_false]
    unfold dictContains at h
    cases hv : dictGet d k with
    | none => simp [dictGet_set_self, pyGet, hv]
    | some v => simp [hv] at h

theorem dictGet_ensureKey_ne (d : Dict) (k k2 : String) (h : k ≠ k2) :
    dictGet (ensureKey d k) k2 = dictGet d k2 := by
  unfold ensureKey
  by_cases hc : dictContains d k
  · simp [hc]
  · simp [hc, dictGet_set_ne d k k2 _ h]

theorem pyGet_ensureKey_self (d : Dict) (k : String) :
    pyGet (ensureKey d k) k = pyGet d k := by
  simp [pyGet, dictGet_ensureKey_self]

theorem pyGet_ensureKey_ne (d : Dict) (k k2 : String) (h : k ≠ k2) :
    pyGet (ensureKey d k) k2 = pyGet d k2 := by
  simp [pyGet, dictGet_ensureKey_ne d k k2 h]

theorem ensure_keys_eq (d : Dict) :
    ensure_keys d =
      ensureKey (ensureKey (ensureKey (ensureKey d "summary") "date") "start_time")
        "location" := rfl

theorem dictGet_ensure_keys_mem (d : Dict) (k : String) (h : k ∈ requiredKeys) :
    dictGet (ensure_keys d) k = some (pyGet d k) := by
  rw [ensure_keys_eq]
  simp only [requiredKeys, List.mem_cons, List.not_mem_nil, or_false] at h
  rcases h with h | h | h | h <;> subst h
  · rw [dictGet_ensureKey_ne _ _ _ (by decide), dictGet_ensureKey_ne _ _ _ (by decide),
      dictGet_ensureKey_ne _ _ _ (by decide), dictGet_ensureKey_self]
  · rw [dictGet_ensureKey_ne _ _ _ (by decide), dictGet_ensureKey_ne _ _ _ (by decide),
      dictGet_ensureKey_self, pyGet_ensureKey_ne _ _ _ (by decide)]
  · rw [dictGet_ensureKey_ne _ _ _ (by decide), dictGet_ensureKey_self,
      pyGet_ensureKey_ne _ _ _ (by decide), pyGet_ensureKey_ne _ _ _ (by decide)]
  · rw [dictGet_ensureKey_self, pyGet_ensureKey_ne _ _ _ (by decide),
      pyGet_ensureKey_ne _ _ _ (by decide), pyGet_ensureKey_ne _ _ _ (by decide)]

theorem dictGet_ensure_keys_not_mem (d : Dict) (k : String) (h : k ∉ requiredKeys) :
    dictGet (ensure_keys d) k = dictGet d k := by
  rw [ensure_keys_eq]
  simp only [requiredKeys, List.mem_cons, List.not_mem_nil, or_false, not_or] at h
  obtain ⟨h1, h2, h3, h4⟩ := h
  rw [dictGet_ensureKey_ne _ _ _ (fun hh => h4 hh.symm),
    dictGet_ensureKey_ne _ _ _ (fun hh => h3 hh.symm),
    dictGet_ensureKey_ne _ _ _ (fun hh => h2 hh.symm),
    dictGet_ensureKey_ne _ _ _ (fun hh => h1 hh.symm)]

theorem pyGet_ensure_keys (d : Dict) (k : String) :
    pyGet (ensure_keys d) k = pyGet d k := by
  by_cases h : k ∈ requiredKeys
  · simp [pyGet, dictGet_ensure_keys_mem d k h]
  · simp [pyGet, dictGet_ensure_keys_not_mem d k h]

theorem dictContains_ensure_keys (d : Dict) (k : String) (h : k ∈ requiredKeys) :
    dictContains (ensure_keys d) k = true := by
  simp [dictContains, dictGet_ensure_keys_mem d k h]

theorem ensureKey_of_contains (d : Dict) (k : String)
    (h : dictContains d k = true) : ensureKey d k = d := by
  unfold ensureKey
  rw [if_pos h]

theorem dictContains_ensureKey (d : Dict) (k k2 : String)
    (h : dictContains d k2 = true) : dictContains (ensureKey d k) k2 = true := by
  by_cases hk : k = k2
  · subst hk
    simp [dictContains, dictGet_ensureKey_self]
  · unfold dictContains
    rw [dictGet_ensureKey_ne d k k2 hk]
    exact h

theorem ensure_keys_of_contains (d : Dict)
    (h : ∀ k ∈ requiredKeys, dictContains d k = true) : ensure_keys d = d := by
  rw [ensure_keys_eq,
    ensureKey_of_contains _ _ (h "summary" (by decide)),
    ensureKey_of_contains _ _ (h "date" (by decide)),
    ensureKey_of_contains _ _ (h "start_time" (by decide)),
    ensureKey_of_contains _ _ (h "location" (by decide))]

/-! ## Lemmas about the date and time validation blocks -/

theorem dateStep_not_truthy (d : Dict) (h : truthy (pyGet d "date") = false) :
    dateStep d = .ok (d, []) := by
  unfold dateStep
  rw [h]
  simp

theorem dateStep_vStr_good (d : Dict) (s : PyStr) (hv : pyGet d "date" = .vStr s)
    (hs : strptimeDate s = true) : dateStep d = .ok (d, []) := by
  unfold dateStep
  rw [hv]
  by_cases he : s = []
  · subst he
    simp [truthy]
  · simp [truthy, he, hs]

theorem dateStep_vStr_bad (d : Dict) (s : PyStr) (hv : pyGet d "date" = .vStr s)
    (he : s ≠ []) (hs : strptimeDate s = false) :
    dateStep d = .ok (dictSet d "date" .vNone, [dateWarn s]) := by
  unfold dateStep
  rw [hv]
  simp [truthy, he, hs]

theorem dateStep_nonstring (d : Dict) (ht : truthy (pyGet d "date") = true)
    (hnv : ∀ s, pyGet d "date" ≠ .vStr s) : dateStep d = .error .typeError := by
  unfold dateStep
  rw [ht]
  cases hv : pyGet d "date" with
  | vStr s => exact absurd hv (hnv s)
  | vNone => simp
  | vInt n => simp
  | vBool b => simp

theorem timeStep_not_truthy (d : Dict) (h : truthy (pyGet d "start_time") = false) :
    timeStep d = .ok (d, []) := by
  unfold timeStep
  rw [h]
  simp

theorem timeStep_vStr_good (d : Dict) (s : PyStr) (hv : pyGet d "start_time" = .vStr s)
    (hs : strptimeTime s = true) : timeStep d = .ok (d, []) := by
  unfold timeStep
  rw [hv]
  by_cases he : s = []
  · subst he
    simp [truthy]
  · simp [truthy, he, hs]

theorem timeStep_vStr_bad (d : Dict) (s : PyStr) (hv : pyGet d "start_time" = .vStr s)
    (he : s ≠ []) (hs : strptimeTime s = false) :
    timeStep d = .ok (dictSet d "start_time" .vNone, [timeWarn s]) := by
  unfold timeStep
  rw [hv]
  simp [truthy, he, hs]

theorem timeStep_nonstring (d : Dict) (ht : truthy (pyGet d "start_time") = true)
    (hnv : ∀ s, pyGet d "start_time" ≠ .vStr s) : timeStep d = .error .typeError := by
  unfold timeStep
  rw [ht]
  cases hv : pyGet d "start_time" with
  | vStr s => exact absurd hv (hnv s)
  | vNone => simp
  | vInt n => simp
  | vBool b => simp

theorem dateStep_ok_out (d r : Dict) (w : List PyStr) (h : dateStep d = .ok (r, w)) :
    (truthy (pyGet d "date") = false ∧ r = d ∧ w = []) ∨
    (∃ s, pyGet d "date" = .vStr s ∧ strptimeDate s = true ∧ r = d ∧ w = []) ∨
    (∃ s, pyGet d "date" = .vStr s ∧ s ≠ [] ∧ strptimeDate s = false ∧
      r = dictSet d "date" .vNone ∧ w = [dateWarn s]) := by
  by_cases ht : truthy (pyGet d "date")
  · cases hv : pyGet d "date" with
    | vStr s =>
      have he : s ≠ [] := by
        rw [hv] at ht
        simp [truthy] at ht
        simpa [List.isEmpty_iff] using ht
      by_cases hs : strptimeDate s
      · rw [dateStep_vStr_good d s hv hs] at h
        right; left
        have := Except.ok.inj h
        exact ⟨s, rfl, hs, congrArg Prod.fst this.symm, congrArg Prod.snd this.symm⟩
      · rw [dateStep_vStr_bad d s hv he (by simpa using hs)] at h
        right; right
        refine ⟨s, rfl, he, by simpa using hs, ?_, ?_⟩
        · exact congrArg Prod.fst (Except.ok.inj h).symm
        · exact congrArg Prod.snd (Except.ok.inj h).symm
    | vNone =>
      rw [hv] at ht
      simp [truthy] at ht
    | vInt n =>
      rw [dateStep_nonstring d ht (by rw [hv]; intro s hh; exact PyVal.noConfusion hh)] at h
      exact absurd h (by simp)
    | vBool b =>
      rw [dateStep_nonstring d ht (by rw [hv]; intro s hh; exact PyVal.noConfusion hh)] at h
      exact absurd h (by simp)
  · rw [dateStep_not_truthy d (by simpa using ht)] at h
    left
    have := Except.ok.inj h
    exact ⟨by simpa using ht, congrArg Prod.fst this.symm, congrArg Prod.snd this.symm⟩

theorem timeStep_ok_out (d r : Dict) (w : List PyStr) (h : timeStep d = .ok (r, w)) :
    (truthy (pyGet d "start_time") = false ∧ r = d ∧ w = []) ∨
    (∃ s, pyGet d "start_time" = .vStr s ∧ strptimeTime s = true ∧ r = d ∧ w = []) ∨
    (∃ s, pyGet d "start_time" = .vStr s ∧ s ≠ [] ∧ strptimeTime s = false ∧
      r = dictSet d "start_time" .vNone ∧ w = [timeWarn s]) := by
  by_cases ht : truthy (pyGet d "start_time")
  · cases hv : pyGet d "start_time" with
    | vStr s =>
      have he : s ≠ [] := by
        rw [hv] at ht
        simp [truthy] at ht
        simpa [List.isEmpty_iff] using ht
      by_cases hs : strptimeTime s
      · rw [timeStep_vStr_good d s hv hs] at h
        right; left
        have := Except.ok.inj h
        exact ⟨s, rfl, hs, congrArg Prod.fst this.symm, congrArg Prod.snd this.symm⟩
      · rw [timeStep_vStr_bad d s hv he (by simpa using hs)] at h
        right; right
        refine ⟨s, rfl, he, by simpa using hs, ?_, ?_⟩
        · exact congrArg Prod.fst (Except.ok.inj h).symm
        · exact congrArg Prod.snd (Except.ok.inj h).symm
    | vNone =>
      rw [hv] at ht
      simp [truthy] at ht
    | vInt n =>
      rw [timeStep_nonstring d ht (by rw [hv]; intro s hh; exact PyVal.noConfusion hh)] at h
      exact absurd h (by simp)
    | vBool b =>
      rw [timeStep_nonstring d ht (by rw [hv]; intro s hh; exact PyVal.noConfusion hh)] at h
      exact absurd h (by simp)
  · rw [timeStep_not_truthy d (by simpa using ht)] at h
    left
    have := Except.ok.inj h
    exact ⟨by simpa using ht, congrArg Prod.fst this.symm, congrArg Prod.snd this.symm⟩

theorem dateStep_ok_ne (d r : Dict) (w : List PyStr) (h : dateStep d = .ok (r, w))
    (k : String) (hk : k ≠ "date") : dictGet r k = dictGet d k := by
  rcases dateStep_ok_out d r w h with ⟨_, he, _⟩ | ⟨s, _, _, he, _⟩ | ⟨s, _, _, _, he, _⟩
  · rw [he]
  · rw [he]
  · rw [he, dictGet_set_ne d "date" k _ (fun hh => hk hh.symm)]

theorem timeStep_ok_ne (d r : Dict) (w : List PyStr) (h : timeStep d = .ok (r, w))
    (k : String) (hk : k ≠ "start_time") : dictGet r k = dictGet d k := by
  rcases timeStep_ok_out d r w h with ⟨_, he, _⟩ | ⟨s, _, _, he, _⟩ | ⟨s, _, _, _, he, _⟩
  · rw [he]
  · rw [he]
  · rw [he, dictGet_set_ne d "start_time" k _ (fun hh => hk hh.symm)]

theorem dateStep_isOk (d : Dict) :
    (dateStep d).isOk = strOrFalsy (pyGet d "date") := by
  by_cases ht : truthy (pyGet d "date")
  · cases hv : pyGet d "date" with
    | vStr s =>
      by_cases hs : strptimeDate s
      · rw [dateStep_vStr_good d s hv hs]
        simp [strOrFalsy, Except.isOk, Except.toBool]
      · have he : s ≠ [] := by
          rw [hv] at ht
          simp [truthy] at ht
          simpa [List.isEmpty_iff] using ht
        rw [dateStep_vStr_bad d s hv he (by simpa using hs)]
        simp [strOrFalsy, Except.isOk, Except.toBool]
    | vNone =>
      rw [hv] at ht
      simp [truthy] at ht
    | vInt n =>
      rw [dateStep_nonstring d ht (by rw [hv]; intro s hh; exact PyVal.noConfusion hh)]
      rw [hv] at ht
      simp [strOrFalsy, Except.isOk, Except.toBool, ht]
    | vBool b =>
      rw [dateStep_nonstring d ht (by rw [hv]; intro s hh; exact PyVal.noConfusion hh)]
      rw [hv] at ht
      simp [strOrFalsy, Except.isOk, Except.toBool, ht]
  · rw [dateStep_not_truthy d (by simpa using ht)]
    cases hv : pyGet d "date" with
    | vStr s => simp [strOrFalsy, Except.isOk, Except.toBool]
    | vNone => simp [strOrFalsy, truthy, Except.isOk, Except.toBool]
    | vInt n =>
      rw [hv] at ht
      simp [strOrFalsy, Except.isOk, Except.toBool, Bool.not_eq_true _ ▸ ht]
    | vBool b =>
      rw [hv] at ht
      simp [strOrFalsy, Except.isOk, Except.toBool, Bool.not_eq_true _ ▸ ht]

theorem timeStep_isOk (d : Dict) :
    (timeStep d).isOk = strOrFalsy (pyGet d "start_time") := by
  by_cases ht : truthy (pyGet d "start_time")
  · cases hv : pyGet d "start_time" with
    | vStr s =>
      by_cases hs : strptimeTime s
      · rw [timeStep_vStr_good d s hv hs]
        simp [strOrFalsy, Except.isOk, Except.toBool]
      · have he : s ≠ [] := by
          rw [hv] at ht
          simp [truthy] at ht
          simpa [List.isEmpty_iff] using ht
        rw [timeStep_vStr_bad d s hv he (by simpa using hs)]
        simp [strOrFalsy, Except.isOk, Except.toBool]
    | vNone =>
      rw [hv] at ht
      simp [truthy] at ht
    | vInt n =>
      rw [timeStep_nonstring d ht (by rw [hv]; intro s hh; exact PyVal.noConfusion hh)]
      rw [hv] at ht
      simp [strOrFalsy, Except.isOk, Except.toBool, ht]
    | vBool b =>
      rw [timeStep_nonstring d ht (by rw [hv]; intro s hh; exact PyVal.noConfusion hh)]
      rw [hv] at ht
      simp [strOrFalsy, Except.isOk, Except.toBool, ht]
  · rw [timeStep_not_truthy d (by simpa using ht)]
    cases hv : pyGet d "start_time" with
    | vStr s => simp [strOrFalsy, Except.isOk, Except.toBool]
    | vNone => simp [strOrFalsy, truthy, Except.isOk, Except.toBool]
    | vInt n =>
      rw [hv] at ht
      simp [strOrFalsy, Except.isOk, Except.toBool, Bool.not_eq_true _ ▸ ht]
    | vBool b =>
      rw [hv] at ht
      simp [strOrFalsy, Except.isOk, Except.toBool, Bool.not_eq_true _ ▸ ht]

/-! ## The validate_extracted_data pipeline -/

theorem validate_ok_steps (d r : Dict) (ws : List PyStr)
    (h : validate_extracted_data d = .ok (r, ws)) :
    ∃ r2 w1 w2, dateStep (ensure_keys d) = .ok (r2, w1) ∧
      timeStep r2 = .ok (r, w2) ∧ ws = w1 ++ w2 := by
  unfold validate_extracted_data at h
  cases hd : dateStep (ensure_keys d) with
  | error e => rw [hd] at h; exact absurd h (by simp)
  | ok p =>
    obtain ⟨r2, w1⟩ := p
    rw [hd] at h
    dsimp only at h
    cases ht : timeStep r2 with
    | error e => rw [ht] at h; simp at h
    | ok q =>
      obtain ⟨r3, w2⟩ := q
      rw [ht] at h
      dsimp only at h
      simp only [Except.ok.injEq, Prod.mk.injEq] at h
      exact ⟨r2, w1, w2, rfl, by rw [h.1] at ht; exact ht, h.2.symm⟩

theorem dictContains_set_self (d : Dict) (k : String) (v : PyVal) :
    dictContains (dictSet d k v) k = true := by
  simp [dictContains, dictGet_set_self]

theorem validate_ok_contains (d r : Dict) (ws : List PyStr)
    (h : validate_extracted_data d = .ok (r, ws)) :
    ∀ k ∈ requiredKeys, dictContains r k = true := by
  obtain ⟨r2, w1, w2, hd, ht, _⟩ := validate_ok_steps d r ws h
  intro k hk
  have hc1 : dictContains (ensure_keys d) k = true := dictContains_ensure_keys d k hk
  have hc2 : dictContains r2 k = true := by
    rcases dateStep_ok_out _ _ _ hd with ⟨_, he, _⟩ | ⟨s, _, _, he, _⟩ | ⟨s, _, _, _, he, _⟩
    · rw [he]; exact hc1
    · rw [he]; exact hc1
    · rw [he]
      by_cases hkd : k = "date"
      · subst hkd; exact dictContains_set_self _ _ _
      · unfold dictContains
        rw [dictGet_set_ne _ _ _ _ (fun hh => hkd hh.symm)]
        exact hc1
  rcases timeStep_ok_out _ _ _ ht with ⟨_, he, _⟩ | ⟨s, _, _, he, _⟩ | ⟨s, _, _, _, he, _⟩
  · rw [he]; exact hc2
  · rw [he]; exact hc2
  · rw [he]
    by_cases hkt : k = "start_time"
    · subst hkt; exact dictContains_set_self _ _ _
    · unfold dictContains
      rw [dictGet_set_ne _ _ _ _ (fun hh => hkt hh.symm)]
      exact hc2

theorem validate_ok_missing_null (d r : Dict) (ws : List PyStr)
    (h : validate_extracted_data d = .ok (r, ws)) :
    ∀ k ∈ requiredKeys, dictContains d k = false → dictGet r k = some .vNone := by
  obtain ⟨r2, w1, w2, hd, ht, _⟩ := validate_ok_steps d r ws h
  intro k hk hm
  have hget : dictGet d k = none := by
    unfold dictContains at hm
    cases hg : dictGet d k with
    | none => rfl
    | some v => rw [hg] at hm; simp at hm
  have h1 : dictGet (ensure_keys d) k = some .vNone := by
    rw [dictGet_ensure_keys_mem d k hk, pyGet, hget]
    rfl
  have h2 : dictGet r2 k = some .vNone := by
    rcases dateStep_ok_out _ _ _ hd with ⟨_, he, _⟩ | ⟨s, _, _, he, _⟩ | ⟨s, _, _, _, he, _⟩
    · rw [he]; exact h1
    · rw [he]; exact h1
    · rw [he]
      by_cases hkd : k = "date"
      · subst hkd; exact dictGet_set_self _ _ _
      · rw [dictGet_set_ne _ _ _ _ (fun hh => hkd hh.symm)]; exact h1
  rcases timeStep_ok_out _ _ _ ht with ⟨_, he, _⟩ | ⟨s, _, _, he, _⟩ | ⟨s, _, _, _, he, _⟩
  · rw [he]; exact h2
  · rw [he]; exact h2
  · rw [he]
    by_cases hkt : k = "start_time"
    · subst hkt; exact dictGet_set_self _ _ _
    · rw [dictGet_set_ne _ _ _ _ (fun hh => hkt hh.symm)]; exact h2

/-- C1 (counterexample): `validate_extracted_data` does not return a record
for every input dict: on `{'date': 1}` the truthy non-string date value is
passed to `datetime.strptime`, which raises an uncaught `TypeError`, so no
record is returned at all. -/
theorem validate_extracted_data_nonstring_date_raises :
    validate_extracted_data [("date", PyVal.vInt 1)] = .error .typeError := by
  decide

/-- C1 (amended): whenever `validate_extracted_data` returns a record — in
particular on every input whose `date` and `start_time` values are strings
or falsy — the returned record has all four keys `summary`, `date`,
`start_time`, `location` present, and every key missing from the input is
bound to null. -/
theorem validate_extracted_data_keys_complete (d r : Dict) (ws : List PyStr)
    (h : validate_extracted_data d = .ok (r, ws)) :
    (∀ k ∈ requiredKeys, dictContains r k = true) ∧
    (∀ k ∈ requiredKeys, dictContains d k = false → dictGet r k = some .vNone) :=
  ⟨validate_ok_contains d r ws h, validate_ok_missing_null d r ws h⟩

/-- Witness for the amended C1, at the spec's Scenario B input
`{"summary": "Test Meeting"}`. -/
theorem validate_extracted_data_keys_complete_witness :
    dictContains [("summary", PyVal.vStr "Test Meeting".toList), ("date", PyVal.vNone),
      ("start_time", PyVal.vNone), ("location", PyVal.vNone)] "location" = true ∧
    dictGet [("summary", PyVal.vStr "Test Meeting".toList), ("date", PyVal.vNone),
      ("start_time", PyVal.vNone), ("location", PyVal.vNone)] "date" = some .vNone :=
  ⟨(validate_extracted_data_keys_complete
      [("summary", PyVal.vStr "Test Meeting".toList)]
      [("summary", PyVal.vStr "Test Meeting".toList), ("date", PyVal.vNone),
        ("start_time", PyVal.vNone), ("location", PyVal.vNone)] [] (by decide)).1
      "location" (by decide),
   (validate_extracted_data_keys_complete
      [("summary", PyVal.vStr "Test Meeting".toList)]
      [("summary", PyVal.vStr "Test Meeting".toList), ("date", PyVal.vNone),
        ("start_time", PyVal.vNone), ("location", PyVal.vNone)] [] (by decide)).2
      "date" (by decide) (by decide)⟩

/-- C4 (counterexample): `validate_extracted_data` is not exception-free for
date/time values of arbitrary type: on `{'start_time': 7}` the uncaught
`TypeError` from `strptime` escapes instead of the field being nulled. -/
theorem validate_extracted_data_nonstring_time_raises :
    validate_extracted_data [("start_time", PyVal.vInt 7)] = .error .typeError := by
  decide

/-- C4 (amended): `validate_extracted_data` raises no exception exactly when
the `date` and `start_time` values are each a string or falsy; malformed
string values are recovered locally by nulling the field, and in that case
the function always returns a record. -/
theorem validate_extracted_data_total_on_safe_values (d : Dict) :
    (validate_extracted_data d).isOk =
      (strOrFalsy (pyGet d "date") && strOrFalsy (pyGet d "start_time")) := by
  unfold validate_extracted_data
  cases hd : dateStep (ensure_keys d) with
  | error e =>
    have hio := dateStep_isOk (ensure_keys d)
    rw [hd, pyGet_ensure_keys] at hio
    dsimp only
    rw [← hio]
    simp [Except.isOk, Except.toBool]
  | ok p =>
    obtain ⟨r2, w1⟩ := p
    have hio := dateStep_isOk (ensure_keys d)
    rw [hd, pyGet_ensure_keys] at hio
    have hdd : strOrFalsy (pyGet d "date") = true := by
      rw [← hio]
      simp [Except.isOk, Except.toBool]
    have htt : pyGet r2 "start_time" = pyGet d "start_time" := by
      unfold pyGet
      rw [dateStep_ok_ne _ _ _ hd "start_time" (by decide)]
      rw [← pyGet, pyGet_ensure_keys, pyGet]
    have hto := timeStep_isOk r2
    rw [htt] at hto
    dsimp only
    cases ht : timeStep r2 with
    | error e =>
      rw [ht] at hto
      rw [hdd, ← hto]
      simp [Except.isOk, Except.toBool]
    | ok q =>
      obtain ⟨r3, w2⟩ := q
      rw [ht] at hto
      rw [hdd, ← hto]
      simp [Except.isOk, Except.toBool]

/-- C5: `validate_extracted_data` is idempotent: re-validating a record it
returned leaves the record unchanged and emits no further warnings. -/
theorem validate_extracted_data_idempotent (d r : Dict) (ws : List PyStr)
    (h : validate_extracted_data d = .ok (r, ws)) :
    validate_extracted_data r = .ok (r, []) := by
  obtain ⟨r2, w1, w2, hd, ht, _⟩ := validate_ok_steps d r ws h
  have hek : ensure_keys r = r :=
    ensure_keys_of_contains r (validate_ok_contains d r ws h)
  have hdate : dateStep r = .ok (r, []) := by
    have hval : pyGet r "date" = pyGet r2 "date" := by
      unfold pyGet
      rw [timeStep_ok_ne _ _ _ ht "date" (by decide)]
    rcases dateStep_ok_out _ _ _ hd with ⟨hf, he, _⟩ | ⟨s, hv, hs, he, _⟩ |
        ⟨s, _, _, _, he, _⟩
    · rw [← he] at hf
      rw [← hval] at hf
      exact dateStep_not_truthy r hf
    · rw [← he] at hv
      rw [← hval] at hv
      exact dateStep_vStr_good r s hv hs
    · have : pyGet r2 "date" = .vNone := by
        rw [he]
        exact pyGet_set_self _ _ _
      rw [← hval] at this
      exact dateStep_not_truthy r (by rw [this]; rfl)
  have htime : timeStep r = .ok (r, []) := by
    rcases timeStep_ok_out _ _ _ ht with ⟨hf, he, _⟩ | ⟨s, hv, hs, he, _⟩ |
        ⟨s, _, _, _, he, _⟩
    · rw [← he] at hf
      exact timeStep_not_truthy r hf
    · rw [← he] at hv
      exact timeStep_vStr_good r s hv hs
    · have : pyGet r "start_time" = .vNone := by
        rw [he]
        exact pyGet_set_self _ _ _
      exact timeStep_not_truthy r (by rw [this]; rfl)
  unfold validate_extracted_data
  rw [hek, hdate]
  dsimp only
  rw [htime]
  rfl

/-- Witness for C5, at a record whose invalid date was nulled (with one
warning) on the first pass: the second pass is a no-op with no warnings. -/
theorem validate_extracted_data_idempotent_witness :
    validate_extracted_data [("date", PyVal.vNone), ("summary", PyVal.vNone),
      ("start_time", PyVal.vNone), ("location", PyVal.vNone)] =
      .ok ([("date", PyVal.vNone), ("summary", PyVal.vNone),
        ("start_time", PyVal.vNone), ("location", PyVal.vNone)], []) :=
  validate_extracted_data_idempotent [("date", PyVal.vStr "15/01/2024".toList)]
    [("date", PyVal.vNone), ("summary", PyVal.vNone),
      ("start_time", PyVal.vNone), ("location", PyVal.vNone)]
    [dateWarn "15/01/2024".toList] (by decide)

/-! ## The strptime formats accept every exact-format value -/

theorem isDigit_mem (c : Char) (h : c.isDigit = true) :
    c ∈ ['0', '1', '2', '3', '4', '5', '6', '7', '8', '9'] := by
  unfold Char.isDigit at h
  rw [Bool.and_eq_true] at h
  obtain ⟨h1, h2⟩ := h
  rw [decide_eq_true_iff] at h1 h2
  have n1 : 48 ≤ c.val.toNat := UInt32.le_toNat_of_le (by decide) h1
  have n2 : c.val.toNat ≤ 57 := UInt32.toNat_le_of_le (by decide) h2
  interval_cases hn : c.val.toNat <;>
    first
    | (have hc : c = '0' := Char.ext (UInt32.toNat.inj (by rw [hn]; rfl)); simp [hc])
    | (have hc : c = '1' := Char.ext (UInt32.toNat.inj (by rw [hn]; rfl)); simp [hc])
    | (have hc : c = '2' := Char.ext (UInt32.toNat.inj (by rw [hn]; rfl)); simp [hc])
    | (have hc : c = '3' := Char.ext (UInt32.toNat.inj (by rw [hn]; rfl)); simp [hc])
    | (have hc : c = '4' := Char.ext (UInt32.toNat.inj (by rw [hn]; rfl)); simp [hc])
    | (have hc : c = '5' := Char.ext (UInt32.toNat.inj (by rw [hn]; rfl)); simp [hc])
    | (have hc : c = '6' := Char.ext (UInt32.toNat.inj (by rw [hn]; rfl)); simp [hc])
    | (have hc : c = '7' := Char.ext (UInt32.toNat.inj (by rw [hn]; rfl)); simp [hc])
    | (have hc : c = '8' := Char.ext (UInt32.toNat.inj (by rw [hn]; rfl)); simp [hc])
    | (have hc : c = '9' := Char.ext (UInt32.toNat.inj (by rw [hn]; rfl)); simp [hc])

theorem isDigit_ne_dash (c : Char) (h : c.isDigit = true) : c ≠ '-' := by
  intro hc
  rw [hc] at h
  exact absurd h (by decide)

theorem isDigit_ne_colon (c : Char) (h : c.isDigit = true) : c ≠ ':' := by
  intro hc
  rw [hc] at h
  exact absurd h (by decide)

theorem monthVal_exact (m1 m2 : Char) (h1 : m1.isDigit = true) (h2 : m2.isDigit = true)
    (hlo : 1 ≤ 10 * digitVal m1 + digitVal m2)
    (hhi : 10 * digitVal m1 + digitVal m2 ≤ 12) :
    monthVal [m1, m2] = some (10 * digitVal m1 + digitVal m2) := by
  have hm1 := isDigit_mem m1 h1
  have hm2 := isDigit_mem m2 h2
  simp only [List.mem_cons, List.not_mem_nil, or_false] at hm1 hm2
  rcases hm1 with rfl|rfl|rfl|rfl|rfl|rfl|rfl|rfl|rfl|rfl <;>
    rcases hm2 with rfl|rfl|rfl|rfl|rfl|rfl|rfl|rfl|rfl|rfl <;>
    revert hlo hhi <;> decide

theorem dayVal_exact (d1 d2 : Char) (h1 : d1.isDigit = true) (h2 : d2.isDigit = true)
    (hlo : 1 ≤ 10 * digitVal d1 + digitVal d2)
    (hhi : 10 * digitVal d1 + digitVal d2 ≤ 31) :
    dayVal [d1, d2] = some (10 * digitVal d1 + digitVal d2) := by
  have hm1 := isDigit_mem d1 h1
  have hm2 := isDigit_mem d2 h2
  simp only [List.mem_cons, List.not_mem_nil, or_false] at hm1 hm2
  rcases hm1 with rfl|rfl|rfl|rfl|rfl|rfl|rfl|rfl|rfl|rfl <;>
    rcases hm2 with rfl|rfl|rfl|rfl|rfl|rfl|rfl|rfl|rfl|rfl <;>
    revert hlo hhi <;> decide

theorem hourVal_exact (h1 h2 : Char) (hd1 : h1.isDigit = true) (hd2 : h2.isDigit = true)
    (hhi : 10 * digitVal h1 + digitVal h2 ≤ 23) :
    hourVal [h1, h2] = some (10 * digitVal h1 + digitVal h2) := by
  have hm1 := isDigit_mem h1 hd1
  have hm2 := isDigit_mem h2 hd2
  simp only [List.mem_cons, List.not_mem_nil, or_false] at hm1 hm2
  rcases hm1 with rfl|rfl|rfl|rfl|rfl|rfl|rfl|rfl|rfl|rfl <;>
    rcases hm2 with rfl|rfl|rfl|rfl|rfl|rfl|rfl|rfl|rfl|rfl <;>
    revert hhi <;> decide

theorem minuteVal_exact (m1 m2 : Char) (hd1 : m1.isDigit = true) (hd2 : m2.isDigit = true)
    (hhi : 10 * digitVal m1 + digitVal m2 ≤ 59) :
    minuteVal [m1, m2] = some (10 * digitVal m1 + digitVal m2) := by
  have hm1 := isDigit_mem m1 hd1
  have hm2 := isDigit_mem m2 hd2
  simp only [List.mem_cons, List.not_mem_nil, or_false] at hm1 hm2
  rcases hm1 with rfl|rfl|rfl|rfl|rfl|rfl|rfl|rfl|rfl|rfl <;>
    rcases hm2 with rfl|rfl|rfl|rfl|rfl|rfl|rfl|rfl|rfl|rfl <;>
    revert hhi <;> decide

theorem strptimeDate_cons_eq (y1 y2 y3 y4 : Char) (rest : PyStr) :
    strptimeDate (y1 :: y2 :: y3 :: y4 :: '-' :: rest) =
      (y1.isDigit && y2.isDigit && y3.isDigit && y4.isDigit &&
      (match splitOnce '-' rest with
       | some (mseg, dseg) =>
         !dseg.contains '-' &&
         (match monthVal mseg, dayVal dseg with
          | some m, some d =>
            let y := 1000 * digitVal y1 + 100 * digitVal y2 +
                     10 * digitVal y3 + digitVal y4
            decide (1 ≤ y) && decide (d ≤ daysInMonth y m)
          | _, _ => false)
       | none => false)) := rfl

theorem strptimeDate_of_exact (s : PyStr) (h : exactDateFormat s = true) :
    strptimeDate s = true := by
  unfold exactDateFormat at h
  split at h
  case h_2 => exact absurd h (by simp)
  case h_1 y1 y2 y3 y4 m1 m2 d1 d2 =>
    simp only [Bool.and_eq_true, decide_eq_true_iff, and_assoc] at h
    obtain ⟨hy1, hy2, hy3, hy4, hm1, hm2, hd1, hd2, hy, hmlo, hmhi, hdlo, hdhi⟩ := h
    rw [strptimeDate_cons_eq]
    have hsplit : splitOnce '-' [m1, m2, '-', d1, d2] = some ([m1, m2], [d1, d2]) := by
      simp [splitOnce, isDigit_ne_dash m1 hm1, isDigit_ne_dash m2 hm2]
    rw [hsplit]
    have hcont : List.contains [d1, d2] '-' = false := by
      simp [List.contains, Ne.symm (isDigit_ne_dash d1 hd1), Ne.symm (isDigit_ne_dash d2 hd2)]
    dsimp only
    rw [hcont, monthVal_exact m1 m2 hm1 hm2 hmlo hmhi,
      dayVal_exact d1 d2 hd1 hd2 hdlo
        (le_trans hdhi (by
          unfold daysInMonth
          split
          · split <;> omega
          · split <;> omega))]
    simp [hy1, hy2, hy3, hy4, hy, hdhi]

theorem strptimeTime_of_exact (s : PyStr) (h : exactTimeFormat s = true) :
    strptimeTime s = true := by
  unfold exactTimeFormat at h
  split at h
  case h_2 => exact absurd h (by simp)
  case h_1 h1 h2 m1 m2 =>
    simp only [Bool.and_eq_true, decide_eq_true_iff, and_assoc] at h
    obtain ⟨hh1, hh2, hm1, hm2, hhh, hmm⟩ := h
    unfold strptimeTime
    have hsplit : splitOnce ':' [h1, h2, ':', m1, m2] = some ([h1, h2], [m1, m2]) := by
      simp [splitOnce, isDigit_ne_colon h1 hh1, isDigit_ne_colon h2 hh2]
    rw [hsplit]
    have hcont : List.contains [m1, m2] ':' = false := by
      simp [List.contains, Ne.symm (isDigit_ne_colon m1 hm1), Ne.symm (isDigit_ne_colon m2 hm2)]
    dsimp only
    rw [hcont, hourVal_exact h1 h2 hh1 hh2 hhh, minuteVal_exact m1 m2 hm1 hm2 hmm]
    simp

theorem dictGet_of_pyGet (d : Dict) (k : String) (v : PyVal)
    (h : pyGet d k = v) (hv : v ≠ .vNone) : dictGet d k = some v := by
  unfold pyGet at h
  cases hg : dictGet d k with
  | none => rw [hg] at h; exact absurd h.symm hv
  | some w => rw [hg] at h; simp only [Option.getD_some] at h; rw [h]

/-- C2 (counterexample): `'2024-1-5'` is a non-null string that does not
match the exact zero-padded format `YYYY-MM-DD`, yet
`validate_extracted_data` keeps it unchanged and emits no warning, because
`strptime('%Y-%m-%d')` accepts one-digit months and days. -/
theorem validate_extracted_data_lenient_date_kept :
    exactDateFormat "2024-1-5".toList = false ∧
    validate_extracted_data [("date", PyVal.vStr "2024-1-5".toList)] =
      .ok ([("date", PyVal.vStr "2024-1-5".toList), ("summary", PyVal.vNone),
        ("start_time", PyVal.vNone), ("location", PyVal.vNone)], []) :=
  ⟨by decide, by decide⟩

/-- C2 (amended): for truthy string `date` and `start_time` values, the
field is nulled (with a warning naming the offending value, other fields
untouched) exactly when CPython `strptime` rejects it under `%Y-%m-%d`
resp. `%H:%M` — a parse that also accepts non-zero-padded values such as
`2024-1-5` — and is passed through unchanged when `strptime` accepts it;
every value in the exact zero-padded format is accepted, hence preserved. -/
theorem validate_extracted_data_field_repair (d : Dict) (s t : PyStr)
    (hd : pyGet d "date" = .vStr s) (hsne : s ≠ [])
    (ht : pyGet d "start_time" = .vStr t) (htne : t ≠ []) :
    ∃ r ws, validate_extracted_data d = .ok (r, ws) ∧
      dictGet r "date" = some (if strptimeDate s then PyVal.vStr s else PyVal.vNone) ∧
      dictGet r "start_time" =
        some (if strptimeTime t then PyVal.vStr t else PyVal.vNone) ∧
      (∀ k, k ≠ "date" → k ≠ "start_time" →
        dictGet r k = dictGet (ensure_keys d) k) ∧
      ws = (if strptimeDate s then [] else [dateWarn s]) ++
        (if strptimeTime t then [] else [timeWarn t]) ∧
      (exactDateFormat s = true → strptimeDate s = true) ∧
      (exactTimeFormat t = true → strptimeTime t = true) := by
  have hd1 : pyGet (ensure_keys d) "date" = .vStr s := by
    rw [pyGet_ensure_keys]; exact hd
  have ht1 : pyGet (ensure_keys d) "start_time" = .vStr t := by
    rw [pyGet_ensure_keys]; exact ht
  have key1 : ∃ r2, dateStep (ensure_keys d) =
      .ok (r2, if strptimeDate s then [] else [dateWarn s]) ∧
      dictGet r2 "date" = some (if strptimeDate s then PyVal.vStr s else PyVal.vNone) ∧
      (∀ k, k ≠ "date" → dictGet r2 k = dictGet (ensure_keys d) k) := by
    by_cases hds : strptimeDate s
    · refine ⟨ensure_keys d, ?_, ?_, fun k _ => rfl⟩
      · rw [if_pos hds]
        exact dateStep_vStr_good _ s hd1 hds
      · rw [if_pos hds]
        exact dictGet_of_pyGet _ _ _ hd1 (by simp)
    · refine ⟨dictSet (ensure_keys d) "date" .vNone, ?_, ?_, ?_⟩
      · rw [if_neg hds]
        exact dateStep_vStr_bad _ s hd1 hsne (by simpa using hds)
      · rw [if_neg hds]
        exact dictGet_set_self _ _ _
      · intro k hk
        exact dictGet_set_ne _ _ _ _ (fun hh => hk hh.symm)
  obtain ⟨r2, hstep1, hr2date, hr2ne⟩ := key1
  have ht2 : pyGet r2 "start_time" = .vStr t := by
    unfold pyGet at ht1 ⊢
    rw [hr2ne "start_time" (by decide)]
    exact ht1
  have key2 : ∃ r3, timeStep r2 =
      .ok (r3, if strptimeTime t then [] else [timeWarn t]) ∧
      dictGet r3 "start_time" =
        some (if strptimeTime t then PyVal.vStr t else PyVal.vNone) ∧
      (∀ k, k ≠ "start_time" → dictGet r3 k = dictGet r2 k) := by
    by_cases hts : strptimeTime t
    · refine ⟨r2, ?_, ?_, fun k _ => rfl⟩
      · rw [if_pos hts]
        exact timeStep_vStr_good _ t ht2 hts
      · rw [if_pos hts]
        exact dictGet_of_pyGet _ _ _ ht2 (by simp)
    · refine ⟨dictSet r2 "start_time" .vNone, ?_, ?_, ?_⟩
      · rw [if_neg hts]
        exact timeStep_vStr_bad _ t ht2 htne (by simpa using hts)
      · rw [if_neg hts]
        exact dictGet_set_self _ _ _
      · intro k hk
        exact dictGet_set_ne _ _ _ _ (fun hh => hk hh.symm)
  obtain ⟨r3, hstep2, hr3time, hr3ne⟩ := key2
  refine ⟨r3, _, ?_, ?_, hr3time, ?_, rfl, strptimeDate_of_exact s,
    strptimeTime_of_exact t⟩
  · unfold validate_extracted_data
    rw [hstep1]
    dsimp only
    rw [hstep2]
  · rw [hr3ne "date" (by decide)]
    exact hr2date
  · intro k hk1 hk2
    rw [hr3ne k hk2, hr2ne k hk1]

/-- Witness for the amended C2, at the record
`{summary: "Team Meeting", date: "2024-01-15", start_time: "2:30 PM"}`:
the exact-format date is preserved and the non-matching time is nulled with
one warning naming `2:30 PM`. -/
theorem validate_extracted_data_field_repair_witness :
    ∃ r ws,
      validate_extracted_data [("summary", PyVal.vStr "Team Meeting".toList),
        ("date", PyVal.vStr "2024-01-15".toList),
        ("start_time", PyVal.vStr "2:30 PM".toList)] = .ok (r, ws) ∧
      dictGet r "date" = some (if strptimeDate "2024-01-15".toList then
        PyVal.vStr "2024-01-15".toList else PyVal.vNone) ∧
      dictGet r "start_time" = some (if strptimeTime "2:30 PM".toList then
        PyVal.vStr "2:30 PM".toList else PyVal.vNone) ∧
      (∀ k, k ≠ "date" → k ≠ "start_time" →
        dictGet r k = dictGet (ensure_keys [("summary", PyVal.vStr "Team Meeting".toList),
          ("date", PyVal.vStr "2024-01-15".toList),
          ("start_time", PyVal.vStr "2:30 PM".toList)]) k) ∧
      ws = (if strptimeDate "2024-01-15".toList then [] else [dateWarn "2024-01-15".toList]) ++
        (if strptimeTime "2:30 PM".toList then [] else [timeWarn "2:30 PM".toList]) ∧
      (exactDateFormat "2024-01-15".toList = true →
        strptimeDate "2024-01-15".toList = true) ∧
      (exactTimeFormat "2:30 PM".toList = true → strptimeTime "2:30 PM".toList = true) :=
  validate_extracted_data_field_repair
    [("summary", PyVal.vStr "Team Meeting".toList),
      ("date", PyVal.vStr "2024-01-15".toList),
      ("start_time", PyVal.vStr "2:30 PM".toList)]
    "2024-01-15".toList "2:30 PM".toList (by decide) (by decide) (by decide) (by decide)

/-! ## Length bounds for the email sanitization pipeline -/

theorem dropWhile_length_le (p : Char → Bool) (l : PyStr) :
    (l.dropWhile p).length ≤ l.length := by
  induction l with
  | nil => simp
  | cons a l ih =>
    rw [List.dropWhile_cons]
    split
    · exact le_trans ih (by simp)
    · simp

theorem pyStrip_length_le (s : PyStr) : (pyStrip s).length ≤ s.length := by
  unfold pyStrip
  rw [List.length_reverse]
  refine le_trans (dropWhile_length_le _ _) ?_
  rw [List.length_reverse]
  exact dropWhile_length_le _ _

theorem pyReplaceGo_length_le (p : Char) (ps : PyStr) (fuel : Nat) :
    ∀ s : PyStr, (pyReplaceGo p ps [] fuel s).length ≤ s.length := by
  induction fuel with
  | zero => intro s; cases s <;> simp [pyReplaceGo]
  | succ n ih =>
    intro s
    cases s with
    | nil => simp [pyReplaceGo]
    | cons c rest =>
      unfold pyReplaceGo
      split
      · refine le_trans (by simpa using ih (rest.drop ps.length)) ?_
        simp only [List.length_cons]
        omega
      · simp only [List.length_cons]
        exact Nat.succ_le_succ (ih rest)

theorem pyReplace_length_le (s pat : PyStr) : (pyReplace s pat []).length ≤ s.length := by
  unfold pyReplace
  cases pat with
  | nil => simp
  | cons p ps => exact pyReplaceGo_length_le p ps s.length s

theorem removeDangerous_eq (s : PyStr) :
    removeDangerous s =
      pyReplace (pyReplace (pyReplace (pyReplace s "<script".toList [])
        "</script>".toList []) "javascript:".toList []) "data:".toList [] := rfl

theorem removeDangerous_length_le (s : PyStr) :
    (removeDangerous s).length ≤ s.length := by
  rw [removeDangerous_eq]
  exact le_trans (pyReplace_length_le _ _) (le_trans (pyReplace_length_le _ _)
    (le_trans (pyReplace_length_le _ _) (pyReplace_length_le _ _)))

theorem sanitizedEmail_length_le (s : PyStr) :
    (sanitizedEmail s).1.length ≤ (removeDangerous (pyStrip s)).length := by
  unfold sanitizedEmail
  dsimp only
  split
  · simp [List.length_take]
  · simp

theorem sanitizedEmail_fst_length_le_max (s : PyStr) :
    (sanitizedEmail s).1.length ≤ cliMaxLength := by
  unfold sanitizedEmail
  dsimp only
  split
  · simp [List.length_take]
  · simp only
    omega

theorem validate_email_input_eq_of_nonempty (s : PyStr) (h : pyStrip s ≠ []) :
    validate_email_input s =
      if (pyStrip (sanitizedEmail s).1).length < 20 then
        .error (.valueError
          "Email content too short. Please provide more detailed email content.")
      else .ok (sanitizedEmail s) := by
  unfold validate_email_input
  have hne : (s.isEmpty || (pyStrip s).isEmpty) = false := by
    have hs : s ≠ [] := by
      intro he
      exact h (by rw [he]; rfl)
    simp [List.isEmpty_iff, hs, h]
  rw [hne]
  simp only [Bool.false_eq_true, if_false]

/-- C6 (counterexample): `'javascript:javascript:xyz'` has trimmed length 25,
at or above the 20-character threshold and non-empty, yet
`validate_email_input` fails: the minimum length is enforced on the
post-sanitization text, which here shrinks to `xyz`. -/
theorem validate_email_input_post_sanitization_floor :
    (pyStrip "javascript:javascript:xyz".toList).length = 25 ∧
    pyStrip "javascript:javascript:xyz".toList ≠ [] ∧
    validate_email_input "javascript:javascript:xyz".toList =
      .error (.valueError
        "Email content too short. Please provide more detailed email content.") :=
  ⟨by decide, by decide, by decide⟩

/-- C6 (amended): empty or all-whitespace input fails with the emptiness
`ValueError`; any input whose trimmed length is below 20 fails; and a
non-empty input succeeds, returning the sanitized text, exactly when the
*post-sanitization* trimmed text (after dangerous-substring removal and
truncation) still has at least 20 characters. -/
theorem validate_email_input_length_gate (s : PyStr) :
    (pyStrip s = [] →
      validate_email_input s = .error (.valueError "Email content cannot be empty.")) ∧
    ((pyStrip s).length < 20 → (validate_email_input s).isOk = false) ∧
    (pyStrip s ≠ [] →
      validate_email_input s =
        if (pyStrip (sanitizedEmail s).1).length < 20 then
          .error (.valueError
            "Email content too short. Please provide more detailed email content.")
        else .ok (sanitizedEmail s)) := by
  refine ⟨?_, ?_, validate_email_input_eq_of_nonempty s⟩
  · intro h
    unfold validate_email_input
    have : (s.isEmpty || (pyStrip s).isEmpty) = true := by
      simp [List.isEmpty_iff, h]
    rw [this]
    simp
  · intro h
    by_cases he : pyStrip s = []
    · unfold validate_email_input
      have : (s.isEmpty || (pyStrip s).isEmpty) = true := by
        simp [List.isEmpty_iff, he]
      rw [this]
      simp [Except.isOk, Except.toBool]
    · rw [validate_email_input_eq_of_nonempty s he]
      have hlt : (pyStrip (sanitizedEmail s).1).length < 20 :=
        lt_of_le_of_lt
          (le_trans (pyStrip_length_le _)
            (le_trans (sanitizedEmail_length_le s) (removeDangerous_length_le _))) h
      rw [if_pos hlt]
      rfl

/-- Witness for the amended C6: an all-whitespace input, a short input, and
an ordinary long-enough input, each routed per the length gate. -/
theorem validate_email_input_length_gate_witness :
    (validate_email_input "   ".toList =
      .error (.valueError "Email content cannot be empty.")) ∧
    ((validate_email_input "Short".toList).isOk = false) ∧
    (validate_email_input "This is a long enough email content for testing.".toList =
      if (pyStrip (sanitizedEmail
          "This is a long enough email content for testing.".toList).1).length < 20 then
        .error (.valueError
          "Email content too short. Please provide more detailed email content.")
      else .ok (sanitizedEmail
        "This is a long enough email content for testing.".toList)) :=
  ⟨(validate_email_input_length_gate "   ".toList).1 (by decide),
   (validate_email_input_length_gate "Short".toList).2.1 (by decide),
   (validate_email_input_length_gate
     "This is a long enough email content for testing.".toList).2.2 (by decide)⟩

/-! ## Truncation behaviour of the two entry points -/

theorem pyReplaceGo_replicate (p : Char) (ps rep : PyStr) (c : Char) (h : p ≠ c) :
    ∀ (n fuel : Nat), pyReplaceGo p ps rep fuel (List.replicate n c) = List.replicate n c := by
  intro n
  induction n with
  | zero => intro fuel; cases fuel <;> simp [pyReplaceGo]
  | succ m ih =>
    intro fuel
    cases fuel with
    | zero => simp [pyReplaceGo, List.replicate_succ]
    | succ f =>
      rw [List.replicate_succ]
      unfold pyReplaceGo
      have hpre : List.isPrefixOf (p :: ps) (c :: List.replicate m c) = false := by
        have hpc : (p == c) = false := by
          simp [h]
        simp [List.isPrefixOf, hpc]
      rw [hpre]
      simp only [Bool.false_eq_true, if_false]
      rw [ih f]

theorem pyStrip_replicate_a (n : Nat) :
    pyStrip (List.replicate n 'a') = List.replicate n 'a' := by
  cases n with
  | zero => rfl
  | succ m =>
    unfold pyStrip
    rw [List.replicate_succ, List.dropWhile_cons_of_neg (by decide)]
    rw [← List.replicate_succ, List.reverse_replicate, List.replicate_succ,
      List.dropWhile_cons_of_neg (by decide), ← List.replicate_succ,
      List.reverse_replicate]

theorem removeDangerous_replicate_a (n : Nat) :
    removeDangerous (List.replicate n 'a') = List.replicate n 'a' := by
  rw [removeDangerous_eq]
  have h1 : pyReplace (List.replicate n 'a') "<script".toList [] = List.replicate n 'a' :=
    pyReplaceGo_replicate '<' "script".toList [] 'a' (by decide) n _
  have h2 : pyReplace (List.replicate n 'a') "</script>".toList [] = List.replicate n 'a' :=
    pyReplaceGo_replicate '<' "/script>".toList [] 'a' (by decide) n _
  have h3 : pyReplace (List.replicate n 'a') "javascript:".toList [] = List.replicate n 'a' :=
    pyReplaceGo_replicate 'j' "avascript:".toList [] 'a' (by decide) n _
  have h4 : pyReplace (List.replicate n 'a') "data:".toList [] = List.replicate n 'a' :=
    pyReplaceGo_replicate 'd' "ata:".toList [] 'a' (by decide) n _
  rw [h1, h2, h3, h4]

/-- C8 (counterexample): the HTTP entry point does not truncate oversized
input; a 50001-character email body is rejected by the `max_length=50000`
field constraint of `EmailProcessRequest` with a validation error. -/
theorem email_process_request_rejects_oversize :
    emailProcessRequestContent (List.replicate 50001 'a') =
      .error (.valueError "ensure this value has at most 50000 characters") := by
  unfold emailProcessRequestContent
  have hlen : (List.replicate 50001 'a').length = 50001 := List.length_replicate _ _
  rw [if_neg (by rw [hlen]; omega), if_pos (by rw [hlen]; simp [httpMaxLength])]

/-- C8 (amended): the CLI entry hard-truncates to 10,000 characters with a
warning, its sanitized output never exceeds 10,000 characters, and inputs at
or under 10,000 characters are never truncated; the HTTP entry
(`EmailProcessRequest`, maximum 50,000) *rejects* longer input with a
validation error instead of truncating it. -/
theorem validate_email_input_truncation_bound (s : PyStr) :
    (∀ r ws, validate_email_input s = .ok (r, ws) → r.length ≤ cliMaxLength) ∧
    (s.length ≤ cliMaxLength →
      sanitizedEmail s = (removeDangerous (pyStrip s), [])) ∧
    (cliMaxLength < (removeDangerous (pyStrip s)).length →
      sanitizedEmail s = ((removeDangerous (pyStrip s)).take cliMaxLength, [truncWarn])) ∧
    (∀ c : PyStr, httpMaxLength < c.length →
      emailProcessRequestContent c =
        .error (.valueError "ensure this value has at most 50000 characters")) := by
  refine ⟨?_, ?_, ?_, ?_⟩
  · intro r ws h
    by_cases he : pyStrip s = []
    · unfold validate_email_input at h
      rw [show (s.isEmpty || (pyStrip s).isEmpty) = true from by
        simp [List.isEmpty_iff, he]] at h
      simp at h
    · rw [validate_email_input_eq_of_nonempty s he] at h
      by_cases hlt : (pyStrip (sanitizedEmail s).1).length < 20
      · rw [if_pos hlt] at h
        simp at h
      · rw [if_neg hlt] at h
        have hr : r = (sanitizedEmail s).1 := by
          have := Except.ok.inj h
          exact (congrArg Prod.fst this).symm
        rw [hr]
        exact sanitizedEmail_fst_length_le_max s
  · intro h
    have hle : (removeDangerous (pyStrip s)).length ≤ cliMaxLength :=
      le_trans (removeDangerous_length_le _) (le_trans (pyStrip_length_le _) h)
    unfold sanitizedEmail
    rw [if_neg (by omega)]
  · intro h
    unfold sanitizedEmail
    rw [if_pos h]
  · intro c hc
    have hc' : 50000 < c.length := hc
    unfold emailProcessRequestContent
    rw [if_neg (by omega), if_pos hc]

/-- Witness for the amended C8: the bound on an ordinary accepted input, an
untruncated short input, a 10,500-character input truncated to exactly
10,000 with the warning, and a 50,001-character HTTP body rejected. -/
theorem validate_email_input_truncation_bound_witness :
    ((sanitizedEmail "This is a long enough email content for testing.".toList).1.length ≤
      cliMaxLength) ∧
    (sanitizedEmail "Short".toList =
      (removeDangerous (pyStrip "Short".toList), [])) ∧
    (sanitizedEmail (List.replicate 10500 'a') =
      ((removeDangerous (pyStrip (List.replicate 10500 'a'))).take cliMaxLength,
        [truncWarn])) ∧
    (emailProcessRequestContent (List.replicate 60000 'b') =
      .error (.valueError "ensure this value has at most 50000 characters")) :=
  ⟨(validate_email_input_truncation_bound
      "This is a long enough email content for testing.".toList).1
      (sanitizedEmail "This is a long enough email content for testing.".toList).1
      (sanitizedEmail "This is a long enough email content for testing.".toList).2
      (by decide),
   (validate_email_input_truncation_bound "Short".toList).2.1 (by decide),
   (validate_email_input_truncation_bound (List.replicate 10500 'a')).2.2.1 (by
      rw [pyStrip_replicate_a, removeDangerous_replicate_a, List.length_replicate]
      simp [cliMaxLength]),
   (validate_email_input_truncation_bound []).2.2.2 (List.replicate 60000 'b') (by
      rw [List.length_replicate]
      simp [httpMaxLength])⟩

/-! ## The confirmation gate -/

theorem mem_missingCritical (d : Dict) (f : String) :
    f ∈ missingCritical d ↔ f ∈ criticalFields ∧ truthy (pyGet d f) = false := by
  unfold missingCritical
  rw [List.mem_filter]
  simp

theorem get_user_confirmation_of_missing (d : Dict) (resp : PyStr)
    (h : missingCritical d ≠ []) :
    get_user_confirmation d resp = ⟨false, false, some (missingCritical d)⟩ := by
  unfold get_user_confirmation
  rw [if_neg (by simpa [List.isEmpty_iff] using h)]

theorem get_user_confirmation_of_complete (d : Dict) (resp : PyStr)
    (h : missingCritical d = []) :
    get_user_confirmation d resp =
      ⟨pyLower (pyStrip resp) = "y".toList || pyLower (pyStrip resp) = "yes".toList,
        true, none⟩ := by
  unfold get_user_confirmation
  rw [if_pos (by simpa [List.isEmpty_iff] using h)]

/-- C7: when any of the critical fields `summary`, `date`, `start_time` is
null, confirmation is refused automatically — `False` without prompting —
and the notice printed names exactly the critical fields failing the gate
(including each null one, never `location`); and when all three are truthy,
a null `location` does not block: the operator is prompted. -/
theorem get_user_confirmation_null_critical_refusal (d : Dict) (resp : PyStr) :
    ((pyGet d "summary" = .vNone ∨ pyGet d "date" = .vNone ∨
        pyGet d "start_time" = .vNone) →
      get_user_confirmation d resp = ⟨false, false, some (missingCritical d)⟩ ∧
      (∀ f ∈ criticalFields, pyGet d f = .vNone → f ∈ missingCritical d) ∧
      "location" ∉ missingCritical d) ∧
    (truthy (pyGet d "summary") = true → truthy (pyGet d "date") = true →
      truthy (pyGet d "start_time") = true →
      (get_user_confirmation d resp).prompted = true ∧
      (get_user_confirmation d resp).notice = none) := by
  constructor
  · intro h
    have hne : missingCritical d ≠ [] := by
      intro hemp
      have : ∀ f ∈ criticalFields, ¬(truthy (pyGet d f) = false) := by
        intro f hf hfalse
        have : f ∈ missingCritical d := (mem_missingCritical d f).mpr ⟨hf, hfalse⟩
        rw [hemp] at this
        exact List.not_mem_nil f this
      rcases h with hn | hn | hn
      · exact this "summary" (by decide) (by rw [hn]; rfl)
      · exact this "date" (by decide) (by rw [hn]; rfl)
      · exact this "start_time" (by decide) (by rw [hn]; rfl)
    refine ⟨get_user_confirmation_of_missing d resp hne, ?_, ?_⟩
    · intro f hf hnull
      exact (mem_missingCritical d f).mpr ⟨hf, by rw [hnull]; rfl⟩
    · intro hmem
      exact absurd ((mem_missingCritical d "location").mp hmem).1 (by decide)
  · intro h1 h2 h3
    have hemp : missingCritical d = [] := by
      unfold missingCritical
      rw [List.filter_eq_nil_iff]
      intro f hf
      simp only [criticalFields, List.mem_cons, List.not_mem_nil, or_false] at hf
      rcases hf with rfl | rfl | rfl <;> simp [h1, h2, h3]
    rw [get_user_confirmation_of_complete d resp hemp]
    exact ⟨rfl, rfl⟩

/-- Witness for C7: a record with null `date` is auto-refused without a
prompt, naming `date`; a record whose only null field is `location` reaches
the prompt. -/
theorem get_user_confirmation_null_critical_refusal_witness :
    (get_user_confirmation [("summary", PyVal.vStr "Team Meeting".toList),
        ("date", PyVal.vNone), ("start_time", PyVal.vStr "14:30".toList)] "y".toList =
      ⟨false, false, some (missingCritical [("summary", PyVal.vStr "Team Meeting".toList),
        ("date", PyVal.vNone), ("start_time", PyVal.vStr "14:30".toList)])⟩ ∧
      (∀ f ∈ criticalFields,
        pyGet [("summary", PyVal.vStr "Team Meeting".toList), ("date", PyVal.vNone),
          ("start_time", PyVal.vStr "14:30".toList)] f = .vNone →
        f ∈ missingCritical [("summary", PyVal.vStr "Team Meeting".toList),
          ("date", PyVal.vNone), ("start_time", PyVal.vStr "14:30".toList)]) ∧
      "location" ∉ missingCritical [("summary", PyVal.vStr "Team Meeting".toList),
        ("date", PyVal.vNone), ("start_time", PyVal.vStr "14:30".toList)]) ∧
    ((get_user_confirmation [("summary", PyVal.vStr "Team Meeting".toList),
        ("date", PyVal.vStr "2024-01-15".toList),
        ("start_time", PyVal.vStr "14:30".toList),
        ("location", PyVal.vNone)] "y".toList).prompted = true ∧
      (get_user_confirmation [("summary", PyVal.vStr "Team Meeting".toList),
        ("date", PyVal.vStr "2024-01-15".toList),
        ("start_time", PyVal.vStr "14:30".toList),
        ("location", PyVal.vNone)] "y".toList).notice = none) :=
  ⟨(get_user_confirmation_null_critical_refusal _ _).1 (by right; left; decide),
   (get_user_confirmation_null_critical_refusal _ _).2 (by decide) (by decide) (by decide)⟩

/-- C10: the confirmation gate tests Python falsiness, not only nullness:
any critical field holding a falsy value — the empty string in particular —
auto-cancels without prompting, exactly as a null does. -/
theorem get_user_confirmation_falsy_critical_refusal (d : Dict) (resp : PyStr)
    (f : String) (hf : f ∈ criticalFields) (h : truthy (pyGet d f) = false) :
    get_user_confirmation d resp = ⟨false, false, some (missingCritical d)⟩ ∧
    f ∈ missingCritical d := by
  have hmem : f ∈ missingCritical d := (mem_missingCritical d f).mpr ⟨hf, h⟩
  have hne : missingCritical d ≠ [] := by
    intro hemp
    rw [hemp] at hmem
    exact List.not_mem_nil f hmem
  exact ⟨get_user_confirmation_of_missing d resp hne, hmem⟩

/-- Witness for C10: `summary = ""` — present and non-null but falsy — is
auto-cancelled without prompting even though all four fields are non-null. -/
theorem get_user_confirmation_falsy_critical_refusal_witness :
    get_user_confirmation [("summary", PyVal.vStr []),
        ("date", PyVal.vStr "2024-01-15".toList),
        ("start_time", PyVal.vStr "14:30".toList),
        ("location", PyVal.vStr "Room A".toList)] "y".toList =
      ⟨false, false, some (missingCritical [("summary", PyVal.vStr []),
        ("date", PyVal.vStr "2024-01-15".toList),
        ("start_time", PyVal.vStr "14:30".toList),
        ("location", PyVal.vStr "Room A".toList)])⟩ ∧
    "summary" ∈ missingCritical [("summary", PyVal.vStr []),
      ("date", PyVal.vStr "2024-01-15".toList),
      ("start_time", PyVal.vStr "14:30".toList),
      ("location", PyVal.vStr "Room A".toList)] :=
  get_user_confirmation_falsy_critical_refusal _ "y".toList "summary"
    (by decide) (by decide)

/-! ## Message-ID recognition -/

theorem splitOnce_eq_some_iff (sep : Char) (s a b : PyStr) :
    splitOnce sep s = some (a, b) ↔ s = a ++ sep :: b ∧ sep ∉ a := by
  induction s generalizing a with
  | nil =>
    constructor
    · intro h
      exact absurd h (by simp [splitOnce])
    · rintro ⟨h, -⟩
      cases a <;> simp at h
  | cons c rest ih =>
    by_cases hc : c = sep
    · subst hc
      unfold splitOnce
      rw [if_pos rfl]
      constructor
      · intro h
        obtain ⟨ha, hb⟩ := Prod.mk.injEq _ _ _ _ ▸ Option.some.inj h
        subst ha
        subst hb
        exact ⟨rfl, by simp⟩
      · rintro ⟨h, hna⟩
        cases a with
        | nil =>
          simp only [List.nil_append, List.cons.injEq] at h
          rw [h.2]
        | cons x xs =>
          simp only [List.cons_append, List.cons.injEq] at h
          exact absurd (h.1 ▸ List.mem_cons_self x xs) (h.1 ▸ (by
            rw [← h.1]
            intro hmem
            exact hna (by rw [h.1] at hmem ⊢; exact List.mem_cons_self _ _)))
    · unfold splitOnce
      rw [if_neg hc]
      constructor
      · intro h
        rw [Option.map_eq_some'] at h
        obtain ⟨⟨a', b'⟩, hsp, heq⟩ := h
        obtain ⟨ha, hb⟩ := Prod.mk.injEq _ _ _ _ ▸ heq
        subst hb
        obtain ⟨hr, hna⟩ := (ih a').mp hsp
        rw [← ha, hr]
        refine ⟨rfl, ?_⟩
        intro hmem
        rcases List.mem_cons.mp hmem with h1 | h1
        · exact hc h1.symm
        · exact hna h1
      · rintro ⟨h, hna⟩
        cases a with
        | nil =>
          simp only [List.nil_append, List.cons.injEq] at h
          exact absurd h.1 hc
        | cons x xs =>
          simp only [List.cons_append, List.cons.injEq] at h
          obtain ⟨hx, hrest⟩ := h
          subst hx
          have : splitOnce sep rest = some (xs, b) :=
            (ih xs).mpr ⟨hrest, fun hm => hna (List.mem_cons_of_mem _ hm)⟩
          rw [this]
          rfl

theorem contains_eq_decide_mem (l : PyStr) (a : Char) :
    l.contains a = decide (a ∈ l) :=
  List.elem_eq_mem a l

/-- C9 (counterexample): `abcde@fghij` contains `@`, has no spaces, and has
length 11 (within 10–200), yet `is_message_id_header` rejects it, because
the code additionally requires the domain part to contain `.` or `-`. -/
theorem is_message_id_header_plain_domain_rejected :
    ('@' ∈ "abcde@fghij".toList) ∧ (' ' ∉ "abcde@fghij".toList) ∧
    10 ≤ "abcde@fghij".toList.length ∧ "abcde@fghij".toList.length ≤ 200 ∧
    is_message_id_header "abcde@fghij".toList = false :=
  ⟨by decide, by decide, by decide, by decide, by decide⟩

/-- C9 (amended): a command-line identifier is routed as a Message-ID
exactly when its trimmed form splits as `local@domain` with exactly one `@`,
no spaces, length 10–200, both parts non-empty, and a domain part containing
a `.` or `-`. -/
theorem is_message_id_header_characterization (s : PyStr) :
    is_message_id_header s = true ↔
      ∃ l dom, pyStrip s = l ++ '@' :: dom ∧ '@' ∉ l ∧ '@' ∉ dom ∧
        l ≠ [] ∧ dom ≠ [] ∧ ' ' ∉ pyStrip s ∧
        10 ≤ (pyStrip s).length ∧ (pyStrip s).length ≤ 200 ∧
        ('.' ∈ dom ∨ '-' ∈ dom) := by
  unfold is_message_id_header
  dsimp only
  constructor
  · intro h
    by_cases h1 : (!List.contains (pyStrip s) '@') = true
    · rw [if_pos h1] at h
      exact absurd h (by simp)
    · rw [if_neg h1] at h
      by_cases h2 : List.contains (pyStrip s) ' ' = true
      · rw [if_pos h2] at h
        exact absurd h (by simp)
      · rw [if_neg h2] at h
        by_cases h3 : (decide ((pyStrip s).length < 10) ||
            decide (200 < (pyStrip s).length)) = true
        · rw [if_pos h3] at h
          exact absurd h (by simp)
        · rw [if_neg h3] at h
          cases hsp : splitOnce '@' (pyStrip s) with
          | none =>
            rw [hsp] at h
            exact absurd h (by simp)
          | some p =>
            obtain ⟨l, dom⟩ := p
            rw [hsp] at h
            dsimp only at h
            by_cases h4 : List.contains dom '@' = true
            · rw [if_pos h4] at h
              exact absurd h (by simp)
            · rw [if_neg h4] at h
              by_cases h5 : (l.isEmpty || dom.isEmpty) = true
              · rw [if_pos h5] at h
                exact absurd h (by simp)
              · rw [if_neg h5] at h
                by_cases h6 : (!List.contains dom '.' && !List.contains dom '-') = true
                · rw [if_pos h6] at h
                  exact absurd h (by simp)
                · obtain ⟨heq, hnl⟩ :=
                    (splitOnce_eq_some_iff '@' (pyStrip s) l dom).mp hsp
                  rw [contains_eq_decide_mem] at h4
                  rw [contains_eq_decide_mem, contains_eq_decide_mem] at h6
                  simp only [List.isEmpty_iff, Bool.or_eq_true, not_or,
                    decide_eq_true_eq] at h5
                  refine ⟨l, dom, heq, hnl, by simpa using h4,
                    h5.1, h5.2, ?_, ?_, ?_, ?_⟩
                  · intro hc
                    exact h2 (by rw [contains_eq_decide_mem]; simpa using hc)
                  · by_contra hc
                    exact h3 (by simp; omega)
                  · by_contra hc
                    exact h3 (by simp; omega)
                  · by_contra hc
                    rw [not_or] at hc
                    exact h6 (by simp [hc.1, hc.2])
  · rintro ⟨l, dom, heq, hnl, hnd, hlne, hdne, hnsp, h10, h200, hdot⟩
    have hm : '@' ∈ pyStrip s := by
      rw [heq]
      exact List.mem_append_right _ (List.mem_cons_self _ _)
    have hsp : splitOnce '@' (pyStrip s) = some (l, dom) :=
      (splitOnce_eq_some_iff '@' (pyStrip s) l dom).mpr ⟨heq, hnl⟩
    rw [if_neg (by simp [contains_eq_decide_mem, hm]),
      if_neg (by simp [contains_eq_decide_mem, hnsp]),
      if_neg (by simp; omega), hsp]
    dsimp only
    rw [if_neg (by simp [contains_eq_decide_mem, hnd]),
      if_neg (by simp [List.isEmpty_iff, hlne, hdne])]
    rcases hdot with hd | hd
    · rw [if_neg (by simp [contains_eq_decide_mem, hd])]
    · rw [if_neg (by simp [contains_eq_decide_mem, hd])]

/-- Witness for the amended C9: `abc123@example.com` satisfies the
characterization and is accepted. -/
theorem is_message_id_header_characterization_witness :
    is_message_id_header "abc123@example.com".toList = true :=
  (is_message_id_header_characterization "abc123@example.com".toList).mpr
    ⟨"abc123".toList, "example.com".toList, by decide, by decide, by decide,
      by decide, by decide, by decide, by decide, by decide, by decide⟩

/-! ## The response sanitizer on fence-wrapped JSON -/

theorem fenceJsonTag_eq : "```json".toList = ['`', '`', '`', 'j', 's', 'o', 'n'] := rfl

theorem fenceJsonOpen_eq :
    "```json\n".toList = ['`', '`', '`', 'j', 's', 'o', 'n', '\n'] := rfl

theorem fenceBareTag_eq : "```".toList = ['`', '`', '`'] := rfl

theorem fenceBareOpen_eq : "```\n".toList = ['`', '`', '`', '\n'] := rfl

theorem fenceClose_eq : "\n```".toList = ['\n', '`', '`', '`'] := rfl

theorem pyReplace_cons (s : PyStr) (p : Char) (ps rep : PyStr) :
    pyReplace s (p :: ps) rep = pyReplaceGo p ps rep s.length s := rfl

theorem pyReplaceGo_nil (p : Char) (ps rep : PyStr) (fuel : Nat) :
    pyReplaceGo p ps rep fuel [] = [] := by
  cases fuel <;> rfl

theorem pyReplaceGo_eq_self (p : Char) (ps rep : PyStr) :
    ∀ (s : PyStr) (fuel : Nat), (∀ n, ¬ ((p :: ps) <+: s.drop n)) →
      pyReplaceGo p ps rep fuel s = s := by
  intro s
  induction s with
  | nil => intro fuel _; cases fuel <;> rfl
  | cons c rest ih =>
    intro fuel h
    cases fuel with
    | zero => rfl
    | succ f =>
      unfold pyReplaceGo
      have hpre : List.isPrefixOf (p :: ps) (c :: rest) = false := by
        rw [Bool.eq_false_iff]
        intro hx
        exact h 0 (by simpa using List.isPrefixOf_iff_prefix.mp hx)
      rw [hpre]
      simp only [Bool.false_eq_true, if_false]
      rw [ih f (fun n => by simpa using h (n + 1))]

theorem pyReplaceGo_cons_eq (p : Char) (ps rep : PyStr) (fuel : Nat) (c : Char)
    (rest : PyStr) :
    pyReplaceGo p ps rep (fuel + 1) (c :: rest) =
      if List.isPrefixOf (p :: ps) (c :: rest) then
        rep ++ pyReplaceGo p ps rep fuel (rest.drop ps.length)
      else c :: pyReplaceGo p ps rep fuel rest := rfl

theorem pyReplaceGo_prefix_step (p : Char) (ps rep t : PyStr) (fuel : Nat) :
    pyReplaceGo p ps rep (fuel + 1) ((p :: ps) ++ t) =
      rep ++ pyReplaceGo p ps rep fuel t := by
  show pyReplaceGo p ps rep (fuel + 1) (p :: (ps ++ t)) = _
  rw [pyReplaceGo_cons_eq]
  have hpre : List.isPrefixOf (p :: ps) (p :: (ps ++ t)) = true :=
    List.isPrefixOf_iff_prefix.mpr ⟨t, rfl⟩
  rw [if_pos hpre, List.drop_left]

theorem pyReplaceGo_close (c : PyStr) :
    ∀ fuel, '\n' ∉ c → c.length < fuel →
      pyReplaceGo '\n' ['`', '`', '`'] [] fuel (c ++ ['\n', '`', '`', '`']) = c := by
  induction c with
  | nil =>
    intro fuel _ hf
    cases fuel with
    | zero => omega
    | succ f =>
      show pyReplaceGo '\n' ['`', '`', '`'] [] (f + 1) ('\n' :: ['`', '`', '`']) = []
      unfold pyReplaceGo
      rw [show List.isPrefixOf ('\n' :: ['`', '`', '`'])
        ('\n' :: ['`', '`', '`']) = true from rfl]
      simp only [if_true]
      simp [pyReplaceGo_nil]
  | cons a rest ih =>
    intro fuel hn hf
    cases fuel with
    | zero => simp at hf
    | succ f =>
      have ha : a ≠ '\n' := by
        intro he
        exact hn (he ▸ List.mem_cons_self a rest)
      show pyReplaceGo '\n' ['`', '`', '`'] [] (f + 1)
        (a :: (rest ++ ['\n', '`', '`', '`'])) = a :: rest
      unfold pyReplaceGo
      have hpre : List.isPrefixOf ('\n' :: ['`', '`', '`'])
          (a :: (rest ++ ['\n', '`', '`', '`'])) = false := by
        rw [Bool.eq_false_iff]
        intro hx
        obtain ⟨u, hu⟩ := List.isPrefixOf_iff_prefix.mp hx
        simp only [List.cons_append, List.cons.injEq] at hu
        exact ha hu.1.symm
      rw [hpre]
      simp only [Bool.false_eq_true, if_false]
      rw [ih f (fun hm => hn (List.mem_cons_of_mem a hm)) (by simpa using Nat.lt_of_succ_lt_succ hf)]

theorem json_open_not_prefix (d : PyStr) (hn : '\n' ∉ d)
    (hne : d ≠ ['`', '`', '`', 'j', 's', 'o', 'n']) :
    ¬ (['`', '`', '`', 'j', 's', 'o', 'n', '\n'] <+: d ++ ['\n', '`', '`', '`']) := by
  intro hpre
  obtain ⟨t, ht⟩ := hpre
  rcases d with _ | ⟨c1, _ | ⟨c2, _ | ⟨c3, _ | ⟨c4, _ | ⟨c5, _ | ⟨c6, _ | ⟨c7, _ |
    ⟨c8, d9⟩⟩⟩⟩⟩⟩⟩⟩ <;> simp_all
  exact hne ht.1.symm ht.2.1.symm ht.2.2.1.symm ht.2.2.2.1.symm ht.2.2.2.2.1.symm
    ht.2.2.2.2.2.1.symm ht.2.2.2.2.2.2.1.symm

theorem bare_open_not_prefix (d : PyStr) (hn : '\n' ∉ d)
    (hne : d ≠ ['`', '`', '`']) :
    ¬ (['`', '`', '`', '\n'] <+: d ++ ['\n', '`', '`', '`']) := by
  intro hpre
  obtain ⟨t, ht⟩ := hpre
  rcases d with _ | ⟨c1, _ | ⟨c2, _ | ⟨c3, _ | ⟨c4, d5⟩⟩⟩⟩ <;> simp_all
  exact hne ht.1.symm ht.2.1.symm ht.2.2.1.symm

theorem json_open_no_match (c : PyStr) (hn : '\n' ∉ c)
    (he : ¬ (['`', '`', '`', 'j', 's', 'o', 'n'] <:+ c)) :
    ∀ n, ¬ (['`', '`', '`', 'j', 's', 'o', 'n', '\n'] <+:
      (c ++ ['\n', '`', '`', '`']).drop n) := by
  intro n hpre
  have hlen := hpre.length_le
  rw [List.length_drop, List.length_append] at hlen
  have hn_le : n ≤ c.length := by
    simp at hlen
    omega
  rw [List.drop_append_of_le_length hn_le] at hpre
  refine json_open_not_prefix (c.drop n) ?_ ?_ hpre
  · intro hm
    exact hn (List.mem_of_mem_drop hm)
  · intro hd
    exact he (by rw [← hd]; exact List.drop_suffix n c)

theorem bare_open_no_match (c : PyStr) (hn : '\n' ∉ c)
    (he : ¬ (['`', '`', '`'] <:+ c)) :
    ∀ n, ¬ (['`', '`', '`', '\n'] <+: (c ++ ['\n', '`', '`', '`']).drop n) := by
  intro n hpre
  have hlen := hpre.length_le
  rw [List.length_drop, List.length_append] at hlen
  have hn_le : n ≤ c.length := by
    simp at hlen
    omega
  rw [List.drop_append_of_le_length hn_le] at hpre
  refine bare_open_not_prefix (c.drop n) ?_ ?_ hpre
  · intro hm
    exact hn (List.mem_of_mem_drop hm)
  · intro hd
    exact he (by rw [← hd]; exact List.drop_suffix n c)

theorem pyStrip_eq_self_of (s : PyStr)
    (h1 : ∀ c, s.head? = some c → isPySpace c = false)
    (h2 : ∀ c, s.getLast? = some c → isPySpace c = false) : pyStrip s = s := by
  unfold pyStrip
  cases s with
  | nil => rfl
  | cons a rest =>
    rw [List.dropWhile_cons_of_neg (by simp [h1 a rfl])]
    rcases hr : (a :: rest).reverse with _ | ⟨b, brest⟩
    · exact absurd hr (by simp)
    · have hb : (a :: rest).getLast? = some b := by
        rw [← List.head?_reverse, hr]
        rfl
      rw [List.dropWhile_cons_of_neg (by simp [h2 b hb]), ← hr,
        List.reverse_reverse]

theorem strip_markdown_json_wrap (c : PyStr) (hn : '\n' ∉ c)
    (he : ¬ (['`', '`', '`', 'j', 's', 'o', 'n'] <:+ c)) :
    strip_markdown ("```json\n".toList ++ c ++ "\n```".toList) = c := by
  unfold strip_markdown
  rw [fenceJsonOpen_eq, fenceClose_eq, fenceJsonTag_eq, fenceBareTag_eq]
  have hpre1 : List.isPrefixOf ['`', '`', '`', 'j', 's', 'o', 'n']
      (['`', '`', '`', 'j', 's', 'o', 'n', '\n'] ++ c ++ ['\n', '`', '`', '`']) = true := by
    apply List.isPrefixOf_iff_prefix.mpr
    refine ⟨'\n' :: (c ++ ['\n', '`', '`', '`']), ?_⟩
    simp
  rw [if_pos hpre1, List.append_assoc]
  have hinner : pyReplace
      (['`', '`', '`', 'j', 's', 'o', 'n', '\n'] ++ (c ++ ['\n', '`', '`', '`']))
      ['`', '`', '`', 'j', 's', 'o', 'n', '\n'] [] = c ++ ['\n', '`', '`', '`'] := by
    rw [pyReplace_cons]
    have hlen : (['`', '`', '`', 'j', 's', 'o', 'n', '\n'] ++
        (c ++ ['\n', '`', '`', '`'])).length =
        ((c ++ ['\n', '`', '`', '`']).length + 7) + 1 := by
      simp [List.length_append]
    rw [hlen, pyReplaceGo_prefix_step,
      pyReplaceGo_eq_self _ _ _ _ _ (json_open_no_match c hn he),
      List.nil_append]
  rw [hinner, pyReplace_cons]
  exact pyReplaceGo_close c _ hn (by simp [List.length_append])

theorem strip_markdown_bare_wrap (c : PyStr) (hn : '\n' ∉ c)
    (he : ¬ (['`', '`', '`'] <:+ c)) :
    strip_markdown ("```\n".toList ++ c ++ "\n```".toList) = c := by
  unfold strip_markdown
  rw [fenceBareOpen_eq, fenceClose_eq, fenceJsonTag_eq, fenceBareTag_eq]
  have hpre1 : List.isPrefixOf ['`', '`', '`', 'j', 's', 'o', 'n']
      (['`', '`', '`', '\n'] ++ c ++ ['\n', '`', '`', '`']) = false := by
    rw [Bool.eq_false_iff]
    intro hx
    obtain ⟨t, ht⟩ := List.isPrefixOf_iff_prefix.mp hx
    simp at ht
  rw [hpre1]
  simp only [Bool.false_eq_true, if_false]
  have hpre2 : List.isPrefixOf ['`', '`', '`']
      (['`', '`', '`', '\n'] ++ c ++ ['\n', '`', '`', '`']) = true := by
    apply List.isPrefixOf_iff_prefix.mpr
    refine ⟨'\n' :: (c ++ ['\n', '`', '`', '`']), ?_⟩
    simp
  rw [if_pos hpre2, List.append_assoc]
  have hinner : pyReplace
      (['`', '`', '`', '\n'] ++ (c ++ ['\n', '`', '`', '`']))
      ['`', '`', '`', '\n'] [] = c ++ ['\n', '`', '`', '`'] := by
    rw [pyReplace_cons]
    have hlen : (['`', '`', '`', '\n'] ++ (c ++ ['\n', '`', '`', '`'])).length =
        ((c ++ ['\n', '`', '`', '`']).length + 3) + 1 := by
      simp [List.length_append]
    rw [hlen, pyReplaceGo_prefix_step,
      pyReplaceGo_eq_self _ _ _ _ _ (bare_open_no_match c hn he),
      List.nil_append]
  rw [hinner, pyReplace_cons]
  exact pyReplaceGo_close c _ hn (by simp [List.length_append])

theorem digitChar_ne_newline (n : Nat) : digitChar n ≠ '\n' := by
  unfold digitChar
  split <;> decide

theorem newline_not_mem_natChars (n : Nat) : '\n' ∉ natChars n := by
  induction n using Nat.strong_induction_on with
  | _ n ih =>
    rw [natChars]
    split
    · simp
      exact fun h => digitChar_ne_newline n h.symm
    · rw [List.mem_append]
      rintro (h | h)
      · exact ih (n / 10) (Nat.div_lt_self (by omega) (by omega)) h
      · simp at h
        exact digitChar_ne_newline (n % 10) h.symm

theorem newline_not_mem_intChars (n : Int) : '\n' ∉ intChars n := by
  unfold intChars
  split
  · rw [List.mem_cons]
    rintro (h | h)
    · exact absurd h (by decide)
    · exact newline_not_mem_natChars _ h
  · exact newline_not_mem_natChars _

theorem newline_not_mem_escapeChar (c : Char) : '\n' ∉ escapeChar c := by
  unfold escapeChar
  split_ifs with h1 h2 h3 h4 h5 <;> simp_all
  exact fun hc => h3 hc.symm

theorem newline_not_mem_renderJsonString (s : PyStr) :
    '\n' ∉ renderJsonString s := by
  unfold renderJsonString
  rw [List.mem_cons]
  rintro (h | h)
  · exact absurd h (by decide)
  · rw [List.mem_append] at h
    rcases h with h | h
    · rw [List.mem_flatMap] at h
      obtain ⟨a, _, ha⟩ := h
      exact newline_not_mem_escapeChar a ha
    · simp at h

theorem render_jarr_eq (items : JsonArr) :
    Json.render (.jarr items) = '[' :: (JsonArr.renderItems items ++ [']']) := rfl

theorem render_jobj_eq (fields : JsonFields) :
    Json.render (.jobj fields) = '{' :: (JsonFields.renderFields fields ++ ['}']) := rfl

theorem renderItems_single (x : Json) :
    JsonArr.renderItems (.acons x .anil) = Json.render x := rfl

theorem renderItems_acons_acons (x y : Json) (tl : JsonArr) :
    JsonArr.renderItems (.acons x (.acons y tl)) =
      Json.render x ++ ',' :: JsonArr.renderItems (.acons y tl) := rfl

theorem renderFields_single (k : PyStr) (v : Json) :
    JsonFields.renderFields (.fcons k v .fnil) =
      renderJsonString k ++ ':' :: Json.render v := rfl

theorem renderFields_fcons_fcons (k : PyStr) (v : Json) (k2 : PyStr) (v2 : Json)
    (tl : JsonFields) :
    JsonFields.renderFields (.fcons k v (.fcons k2 v2 tl)) =
      renderJsonString k ++ ':' :: Json.render v ++ ',' ::
        JsonFields.renderFields (.fcons k2 v2 tl) := rfl

mutual
theorem newline_not_mem_render : ∀ j : Json, '\n' ∉ j.render
  | .jnull => by
    intro h
    exact absurd h (by decide)
  | .jbool true => by
    intro h
    exact absurd h (by decide)
  | .jbool false => by
    intro h
    exact absurd h (by decide)
  | .jnum n => newline_not_mem_intChars n
  | .jstr s => newline_not_mem_renderJsonString s
  | .jarr items => by
    rw [render_jarr_eq]
    intro h
    rcases List.mem_cons.mp h with h | h
    · exact absurd h (by decide)
    · rcases List.mem_append.mp h with h | h
      · exact newline_not_mem_renderItems items h
      · exact absurd h (by decide)
  | .jobj fields => by
    rw [render_jobj_eq]
    intro h
    rcases List.mem_cons.mp h with h | h
    · exact absurd h (by decide)
    · rcases List.mem_append.mp h with h | h
      · exact newline_not_mem_renderFields fields h
      · exact absurd h (by decide)
theorem newline_not_mem_renderItems : ∀ xs : JsonArr, '\n' ∉ JsonArr.renderItems xs
  | .anil => by
    intro h
    exact absurd h (by decide)
  | .acons x .anil => by
    rw [renderItems_single]
    exact newline_not_mem_render x
  | .acons x (.acons y tl) => by
    rw [renderItems_acons_acons]
    intro h
    rcases List.mem_append.mp h with h | h
    · exact newline_not_mem_render x h
    · rcases List.mem_cons.mp h with h | h
      · exact absurd h (by decide)
      · exact newline_not_mem_renderItems (.acons y tl) h
theorem newline_not_mem_renderFields :
    ∀ fs : JsonFields, '\n' ∉ JsonFields.renderFields fs
  | .fnil => by
    intro h
    exact absurd h (by decide)
  | .fcons k v .fnil => by
    rw [renderFields_single]
    intro h
    rcases List.mem_append.mp h with h | h
    · exact newline_not_mem_renderJsonString k h
    · rcases List.mem_cons.mp h with h | h
      · exact absurd h (by decide)
      · exact newline_not_mem_render v h
  | .fcons k v (.fcons k2 v2 tl) => by
    rw [renderFields_fcons_fcons]
    intro h
    rcases List.mem_append.mp h with h | h
    · rcases List.mem_append.mp h with h | h
      · exact newline_not_mem_renderJsonString k h
      · rcases List.mem_cons.mp h with h | h
        · exact absurd h (by decide)
        · exact newline_not_mem_render v h
    · rcases List.mem_cons.mp h with h | h
      · exact absurd h (by decide)
      · exact newline_not_mem_renderFields (.fcons k2 v2 tl) h
end

theorem not_suffix_of_concat_ne (u v : PyStr) (a b : Char) (hab : a ≠ b) :
    ¬ ((u ++ [a]) <:+ (v ++ [b])) := by
  rintro ⟨w, hw⟩
  have hlast := congrArg List.getLast? hw
  rw [← List.append_assoc, List.getLast?_concat, List.getLast?_concat] at hlast
  exact hab (Option.some.inj hlast)

theorem render_jobj_shape (fields : JsonFields) :
    Json.render (.jobj fields) = ('{' :: JsonFields.renderFields fields) ++ ['}'] := by
  rw [render_jobj_eq]
  rfl

theorem json_tag_not_suffix_render (fields : JsonFields) :
    ¬ (['`', '`', '`', 'j', 's', 'o', 'n'] <:+ Json.render (.jobj fields)) := by
  rw [render_jobj_shape,
    show ['`', '`', '`', 'j', 's', 'o', 'n'] = ['`', '`', '`', 'j', 's', 'o'] ++ ['n']
      from rfl]
  exact not_suffix_of_concat_ne _ _ 'n' '}' (by decide)

theorem bare_tag_not_suffix_render (fields : JsonFields) :
    ¬ (['`', '`', '`'] <:+ Json.render (.jobj fields)) := by
  rw [render_jobj_shape, show ['`', '`', '`'] = ['`', '`'] ++ ['`'] from rfl]
  exact not_suffix_of_concat_ne _ _ '`' '}' (by decide)

theorem pyStrip_json_wrap (c : PyStr) :
    pyStrip ("```json\n".toList ++ c ++ "\n```".toList) =
      "```json\n".toList ++ c ++ "\n```".toList := by
  apply pyStrip_eq_self_of
  · intro x hx
    rw [show ("```json\n".toList ++ c ++ "\n```".toList).head? = some '`' from rfl] at hx
    cases hx
    decide
  · intro x hx
    rw [fenceClose_eq, show ['\n', '`', '`', '`'] = ['\n', '`', '`'] ++ ['`'] from rfl,
      ← List.append_assoc, List.getLast?_concat] at hx
    cases hx
    decide

theorem pyStrip_bare_wrap (c : PyStr) :
    pyStrip ("```\n".toList ++ c ++ "\n```".toList) =
      "```\n".toList ++ c ++ "\n```".toList := by
  apply pyStrip_eq_self_of
  · intro x hx
    rw [show ("```\n".toList ++ c ++ "\n```".toList).head? = some '`' from rfl] at hx
    cases hx
    decide
  · intro x hx
    rw [fenceClose_eq, show ['\n', '`', '`', '`'] = ['\n', '`', '`'] ++ ['`'] from rfl,
      ← List.append_assoc, List.getLast?_concat] at hx
    cases hx
    decide

/-- C3: for every JSON object (compact serialization, as `json.dumps`
produces), wrapping it in a json-tagged or bare markdown fence and running
the response sanitizer of `extract_event_details` returns exactly the inner
text, so any parse — `json.loads` included — yields the same value as
parsing the unwrapped content directly. -/
theorem sanitize_response_fenced_json_roundtrip {α : Type} (fields : JsonFields)
    (parse : PyStr → α) :
    parse (sanitize_response (jsonFenceWrap (Json.render (.jobj fields)))) =
      parse (Json.render (.jobj fields)) ∧
    parse (sanitize_response (bareFenceWrap (Json.render (.jobj fields)))) =
      parse (Json.render (.jobj fields)) := by
  have hn : '\n' ∉ Json.render (.jobj fields) := newline_not_mem_render _
  constructor
  · unfold sanitize_response jsonFenceWrap
    rw [pyStrip_json_wrap,
      strip_markdown_json_wrap _ hn (json_tag_not_suffix_render fields)]
  · unfold sanitize_response bareFenceWrap
    rw [pyStrip_bare_wrap,
      strip_markdown_bare_wrap _ hn (bare_tag_not_suffix_render fields)]
